import Mathlib

/-!
Student Management System: a shallow embedding of `src/main.cpp`.

The C++ classes `Person`, `Student`, `HonorsStudent`, `StudentRepository` and `App`
are embedded as Lean structures and pure functions.

* `int` values are embedded as `Int`.  The only arithmetic the program performs on an
  `int` is the pre-increment of the auto-roll counter, which is embedded with an explicit
  32-bit two's complement wrap (`wrapInt`).
* A member function that can throw returns the outcome together with the object state
  it leaves behind (`Except Error Unit × σ`), so that "unchanged on failure" is a theorem
  and not a convention.
* `std::vector<T>` is embedded as `List T`; a `unique_ptr<Student>` held by the repository
  is embedded as the object it owns (`StudentObj`), whose dynamic type is either
  `Student` or `HonorsStudent`.
* Console input is embedded as the values read.  The `print` member functions are embedded
  as the text they write to the stream; the prompts and messages of `App` are not part of
  the embedding.
* `std::sort` is embedded through its contract (`StdSort`): the standard fixes the result
  only up to the order of equivalent elements, so `sortByRoll` takes the implementation
  as a parameter and theorems about it hold for every conforming implementation.  The
  `std::sort` of GCC's libstdc++ is embedded as `libstdcxx.sort` and proved to be one.
-/

namespace SMS

/-! ## Exceptions -/

/-- The two standard exception classes the program throws, with their `what()` text. -/
inductive Error where
  | invalid_argument (what : String)
  | runtime_error (what : String)
  deriving DecidableEq, Repr

/-- The outcome of a call that returns a value of type `α` or throws. -/
abbrev Outcome (α : Type) := Except Error α

/-- Whether a call threw. -/
def threw {α : Type} : Outcome α → Bool
  | .error _ => true
  | .ok _ => false

/-- Whether a call threw `std::invalid_argument` (the validation error). -/
def threwInvalidArgument {α : Type} : Outcome α → Bool
  | .error (.invalid_argument _) => true
  | _ => false

/-- Whether a call threw `std::runtime_error` (the duplicate-key error). -/
def threwRuntimeError {α : Type} : Outcome α → Bool
  | .error (.runtime_error _) => true
  | _ => false

/-! ## `double` -/

/-- A value of the C++ type `double`: a finite value `(-1)^neg * mant * 2^exp`, an
infinity or a NaN.  Every finite IEEE-754 binary64 value has this form. -/
inductive Double where
  | finite (neg : Bool) (mant : Nat) (exp : Int)
  | inf (neg : Bool)
  | nan (neg : Bool)
  deriving DecidableEq, Repr

/-- The comparison `s < 0` on `double`: false for zeros (of either sign) and for NaN. -/
def Double.ltZero : Double → Bool
  | .finite neg mant _ => neg && decide (mant ≠ 0)
  | .inf neg => neg
  | .nan _ => false

/-- The comparison `s >= 0` on `double`: false for NaN. -/
def Double.geZero : Double → Bool
  | .finite neg mant _ => !neg || decide (mant = 0)
  | .inf neg => !neg
  | .nan _ => false

/-- The magnitude `mant * 2^exp` scaled by `10^prec` and rounded to the nearest integer,
ties to even (the rounding `printf` applies in the default rounding mode). -/
def scaledRound (prec : Nat) (mant : Nat) (exp : Int) : Nat :=
  match exp with
  | .ofNat e => mant * 10 ^ prec * 2 ^ e
  | .negSucc e =>
    let num := mant * 10 ^ prec
    let den := 2 ^ (e + 1)
    let q := num / den
    let r := num % den
    if 2 * r > den ∨ (2 * r = den ∧ q % 2 = 1) then q + 1 else q

/-- The `k` low decimal digits of `n`, most significant first. -/
def decimalDigits : Nat → Nat → List Char
  | 0, _ => []
  | k + 1, n => decimalDigits k (n / 10) ++ [Nat.digitChar (n % 10)]

/-- The text `printf("%.<prec>f", d)` produces, which is also what
`os << fixed << setprecision(prec) << d` writes. -/
def Double.fixed (prec : Nat) : Double → String
  | .finite neg mant exp =>
    let n := scaledRound prec mant exp
    (if neg then "-" else "") ++ toString (n / 10 ^ prec)
      ++ (if prec = 0 then "" else "." ++ String.mk (decimalDigits prec (n % 10 ^ prec)))
  | .inf neg => if neg then "-inf" else "inf"
  | .nan neg => if neg then "-nan" else "nan"

/-- The text of `std::to_string(double)`, defined by the standard as `printf("%f", d)`,
that is, fixed notation with six digits after the decimal point. -/
def to_string_double (d : Double) : String := d.fixed 6

/-- The text of `std::to_string(int)`: the decimal representation. -/
def to_string_int (i : Int) : String := toString i

/-! ## The entity model -/

/-- The class `Person`: `name_` and `age_`. -/
structure Person where
  name_ : String
  age_ : Int
  deriving DecidableEq, Repr

/-- The struct `Address`. -/
structure Address where
  line1 : String
  city : String
  state : String
  zip : String
  deriving DecidableEq, Repr

/-- The struct `Course`. -/
structure Course where
  code : String
  title : String
  deriving DecidableEq, Repr

/-- The class `Student`, which adds `roll_`, `address_` and `courses_` to `Person`. -/
structure Student extends Person where
  roll_ : Int
  address_ : Address
  courses_ : List Course
  deriving DecidableEq, Repr

/-- The class `HonorsStudent`, which adds `scholarship_` to `Student`. -/
structure HonorsStudent extends Student where
  scholarship_ : Double
  deriving DecidableEq, Repr

/-- A default-constructed `Address`: four empty strings. -/
def Address.empty : Address := ⟨"", "", "", ""⟩

/-- `Person::ensureValidAge`. -/
def Person.ensureValidAge (a : Int) : Outcome Unit :=
  if a < 0 ∨ a > 130 then .error (.invalid_argument "Invalid age.") else .ok ()

/-- The constructor `Person(string n, int a)`. -/
def Person.ctor (n : String) (a : Int) : Outcome Person :=
  if n = "" then .error (.invalid_argument "Name empty")
  else match Person.ensureValidAge a with
    | .error e => .error e
    | .ok () => .ok { name_ := n, age_ := a }

/-- The constructor `Student(string n, int a, int r)`: the `Person` base is constructed
first, then the roll is checked. -/
def Student.ctor (n : String) (a : Int) (r : Int) : Outcome Student :=
  match Person.ctor n a with
  | .error e => .error e
  | .ok p =>
    if r ≤ 0 then .error (.invalid_argument "Invalid roll")
    else .ok { toPerson := p, roll_ := r, address_ := Address.empty, courses_ := [] }

/-- `Student::roll`. -/
def Student.roll (s : Student) : Int := s.roll_

/-- `Person::name`, called on a `Student`. -/
def Student.name (s : Student) : String := s.name_

/-- `Person::age`, called on a `Student`. -/
def Student.age (s : Student) : Int := s.age_

/-- `Student::address`. -/
def Student.address (s : Student) : Address := s.address_

/-- The constructor `HonorsStudent(string n, int a, int r, double s)`. -/
def HonorsStudent.ctor (n : String) (a : Int) (r : Int) (s : Double) : Outcome HonorsStudent :=
  match Student.ctor n a r with
  | .error e => .error e
  | .ok st =>
    if s.ltZero then .error (.invalid_argument "Invalid scholarship")
    else .ok { toStudent := st, scholarship_ := s }

/-! ### The auto-roll counter -/

/-- The largest value of the C++ type `int`. -/
def INT_MAX : Int := 2147483647

/-- The initial value of the function-local static `seed` of `Student::rollSeed`. -/
def rollSeedInit : Int := 1000

/-- An integer reduced to the 32-bit two's complement range.  Overflowing a signed `int`
is undefined behaviour in C++; the embedding fixes the wrap-around that two's complement
hardware performs, and the theorems about the counter assume the counter is below
`INT_MAX` wherever it is incremented. -/
def wrapInt (x : Int) : Int := (x + 2147483648) % 4294967296 - 2147483648

/-- The constructor `Student(string n, int a)` with the static counter of
`Student::rollSeed` threaded as explicit state: the `Person` base is constructed first
(a throw leaves the counter untouched), then `roll_` is initialised with `++rollSeed()`.
No check of the roll follows. -/
def Student.ctorAuto (seed : Int) (n : String) (a : Int) : Outcome Student × Int :=
  match Person.ctor n a with
  | .error e => (.error e, seed)
  | .ok p =>
    let seed1 := wrapInt (seed + 1)
    (.ok { toPerson := p, roll_ := seed1, address_ := Address.empty, courses_ := [] }, seed1)

/-! ### Mutators -/

/-- `Person::setName`: the outcome and the object afterwards. -/
def Person.setName (p : Person) (n : String) : Outcome Unit × Person :=
  if n = "" then (.error (.invalid_argument "Empty name"), p)
  else (.ok (), { p with name_ := n })

/-- `Person::setAge`: the outcome and the object afterwards. -/
def Person.setAge (p : Person) (a : Int) : Outcome Unit × Person :=
  match Person.ensureValidAge a with
  | .error e => (.error e, p)
  | .ok () => (.ok (), { p with age_ := a })

/-- `Person::setName` called on a `Student`. -/
def Student.setName (s : Student) (n : String) : Outcome Unit × Student :=
  ((s.toPerson.setName n).1, { s with toPerson := (s.toPerson.setName n).2 })

/-- `Person::setAge` called on a `Student`. -/
def Student.setAge (s : Student) (a : Int) : Outcome Unit × Student :=
  ((s.toPerson.setAge a).1, { s with toPerson := (s.toPerson.setAge a).2 })

/-- `Student::setRoll`: the outcome and the object afterwards. -/
def Student.setRoll (s : Student) (r : Int) : Outcome Unit × Student :=
  if r ≤ 0 then (.error (.invalid_argument "Invalid roll"), s)
  else (.ok (), { s with roll_ := r })

/-- `Student::setAddress`. -/
def Student.setAddress (s : Student) (a : Address) : Student :=
  { s with address_ := a }

/-- `std::find_if` followed by the comparison with `end()`: whether some element
satisfies the predicate. -/
def foundIf {α : Type} (pred : α → Bool) : List α → Bool
  | [] => false
  | x :: xs => if pred x then true else foundIf pred xs

/-- `std::remove_if`: the elements of the range `[begin, it)` it leaves, namely the
elements that do not satisfy the predicate, in their original order. -/
def remove_if {α : Type} (pred : α → Bool) : List α → List α
  | [] => []
  | x :: xs => if pred x then remove_if pred xs else x :: remove_if pred xs

/-- `Student::addCourse`. -/
def Student.addCourse (s : Student) (c : Course) : Student :=
  if foundIf (fun x => decide (x.code = c.code)) s.courses_ then s
  else { s with courses_ := s.courses_ ++ [c] }

/-- `Student::removeCourseByCode`: the value returned and the object afterwards.  The
test `it != courses_.end()` holds exactly when `remove_if` kept fewer elements than the
vector has. -/
def Student.removeCourseByCode (s : Student) (code : String) : Bool × Student :=
  let kept := remove_if (fun c => decide (c.code = code)) s.courses_
  if kept.length ≠ s.courses_.length then (true, { s with courses_ := kept })
  else (false, s)

/-- A call of one of the mutating member functions of `Student`. -/
inductive StudentOp where
  | setName (n : String)
  | setAge (a : Int)
  | setRoll (r : Int)
  | setAddress (a : Address)
  | addCourse (c : Course)
  | removeCourseByCode (code : String)
  deriving DecidableEq, Repr

/-- The object after one mutator call, whether the call returned or threw. -/
def Student.apply (s : Student) : StudentOp → Student
  | .setName n => (s.setName n).2
  | .setAge a => (s.setAge a).2
  | .setRoll r => (s.setRoll r).2
  | .setAddress a => s.setAddress a
  | .addCourse c => s.addCourse c
  | .removeCourseByCode code => (s.removeCourseByCode code).2

/-- The object after a sequence of mutator calls. -/
def Student.applyAll (s : Student) : List StudentOp → Student
  | [] => s
  | op :: ops => (s.apply op).applyAll ops

/-! ### Serialization -/

/-- `Student::serialize`. -/
def Student.serialize (s : Student) : String :=
  "Student|" ++ to_string_int s.roll_ ++ "|" ++ s.name_ ++ "|" ++ to_string_int s.age_

/-- `HonorsStudent::serialize`. -/
def HonorsStudent.serialize (h : HonorsStudent) : String :=
  h.toStudent.serialize ++ "|SCH:" ++ to_string_double h.scholarship_

/-- The object a `unique_ptr<Student>` owns: its dynamic type is `Student` or
`HonorsStudent`. -/
inductive StudentObj where
  | student (s : Student)
  | honors (h : HonorsStudent)
  deriving DecidableEq, Repr

/-- The `Student` subobject of the pointee. -/
def StudentObj.base : StudentObj → Student
  | .student s => s
  | .honors h => h.toStudent

/-- The pointee with its `Student` subobject replaced (what a member function of
`Student` called through the pointer can change). -/
def StudentObj.withBase : StudentObj → Student → StudentObj
  | .student _, s => .student s
  | .honors h, s => .honors { h with toStudent := s }

/-- `p->roll()`. -/
def StudentObj.roll (p : StudentObj) : Int := p.base.roll

/-- `p->name()`. -/
def StudentObj.name (p : StudentObj) : String := p.base.name

/-- The virtual call `p->serialize()`. -/
def StudentObj.serialize : StudentObj → String
  | .student s => s.serialize
  | .honors h => h.serialize

/-! ### Printing -/

/-- `Person::print`: the text written to the stream (`os << age_` writes the decimal
representation of the `int`). -/
def Person.print (p : Person) : String :=
  "Name: " ++ p.name_ ++ "\nAge: " ++ to_string_int p.age_ ++ "\n"

/-- `Address::toString`. -/
def Address.toString (a : Address) : String :=
  let s0 := a.line1
  let s1 := if a.city ≠ "" then s0 ++ (", " ++ a.city) else s0
  let s2 := if a.state ≠ "" then s1 ++ (", " ++ a.state) else s1
  if a.zip ≠ "" then s2 ++ (" (" ++ a.zip ++ ")") else s2

/-- The loop of `Student::print` over `courses_`: each code, with `", "` after every code
but the last. -/
def printCourseCodes : List Course → String
  | [] => ""
  | [c] => c.code
  | c :: c1 :: cs => c.code ++ ", " ++ printCourseCodes (c1 :: cs)

/-- `Student::print`, given the text the virtual call `role()` returns for the dynamic
type of the object: the header, then `Person::print`, then the lines of `Student`. -/
def Student.print (role : String) (s : Student) : String :=
  "[ " ++ role ++ " ]\n" ++ s.toPerson.print
    ++ ("Roll No: " ++ to_string_int s.roll_ ++ "\n")
    ++ (if s.address_.toString ≠ "" then "Address: " ++ s.address_.toString ++ "\n" else "")
    ++ (if s.courses_ ≠ [] then "Courses: " ++ printCourseCodes s.courses_ ++ "\n" else "")

/-- `HonorsStudent::print`: `Student::print`, in which `role()` is `"Honors Student"`,
then the scholarship line written with `fixed << setprecision(2)`. -/
def HonorsStudent.print (h : HonorsStudent) : String :=
  Student.print "Honors Student" h.toStudent
    ++ ("Scholarship: " ++ h.scholarship_.fixed 2 ++ "\n")

/-- The virtual call `p->role()`. -/
def StudentObj.role : StudentObj → String
  | .student _ => "Student"
  | .honors _ => "Honors Student"

/-- The virtual call `p->print(os)`. -/
def StudentObj.print : StudentObj → String
  | .student s => Student.print "Student" s
  | .honors h => h.print

/-- The non-virtual call `p->Person::print(os)`: the `Person`-level text of the object. -/
def StudentObj.printPerson (p : StudentObj) : String := p.base.toPerson.print

/-- The non-virtual call `p->Student::print(os)`: the `Student`-level text of the object
(`role()` inside it is still dispatched on the dynamic type). -/
def StudentObj.printStudent (p : StudentObj) : String := Student.print p.role p.base

/-! ## `std::sort` -/

/-- The comparator of `sortByRoll`: `a->roll() < b->roll()`. -/
def rollLess (a b : StudentObj) : Bool := decide (a.roll < b.roll)

/-- An implementation of `std::sort(first, last, comp)` for the comparator `rollLess`.
The standard specifies the result only: the range holds the same elements as before
(`perm`) and `comp(*j, *i)` is false for all positions `i < j` (`sorted`); the relative
order of elements that compare equivalent is left to the implementation. -/
structure StdSort where
  run : List StudentObj → List StudentObj
  perm : ∀ l, (run l).Perm l
  sorted : ∀ l, (run l).Pairwise (fun a b => rollLess b a = false)

/-- The order "roll not greater" on the entities. -/
def rollLe (a b : StudentObj) : Prop := a.roll ≤ b.roll

instance rollLe.decidable : DecidableRel rollLe :=
  fun a b => inferInstanceAs (Decidable (a.roll ≤ b.roll))

instance rollLe.isTotal : IsTotal StudentObj rollLe :=
  ⟨fun a b => Int.le_total a.roll b.roll⟩

instance rollLe.isTrans : IsTrans StudentObj rollLe :=
  ⟨fun _ _ _ h1 h2 => Int.le_trans h1 h2⟩

namespace libstdcxx

/-- `std::iter_swap(first + i, first + j)`. -/
def iterSwap {α : Type} (l : List α) (i j : Nat) : List α :=
  match l[i]?, l[j]? with
  | some x, some y => (l.set i y).set j x
  | _, _ => l

/-- `std::__lg(n)`: the floor of the binary logarithm of `n > 0`.  The first argument
bounds the number of halvings; `lg n n` is the logarithm (`lg_eq_log2`). -/
def lg : Nat → Nat → Nat
  | 0, _ => 0
  | fuel + 1, n => if n < 2 then 0 else lg fuel (n / 2) + 1

/-- `std::__move_median_to_first(result, a, b, c, comp)`. -/
def moveMedianToFirst {α : Type} (lt : α → α → Bool) (l : List α)
    (result a b c : Nat) : List α :=
  match l[a]?, l[b]?, l[c]? with
  | some xa, some xb, some xc =>
    if lt xa xb then
      if lt xb xc then iterSwap l result b
      else if lt xa xc then iterSwap l result c
      else iterSwap l result a
    else if lt xa xc then iterSwap l result a
    else if lt xb xc then iterSwap l result c
    else iterSwap l result b
  | _, _, _ => l

/-- The loop `while (comp(first, pivot)) ++first;` over the elements from `first` on:
the new `first`. -/
def scanUp {α : Type} (lt : α → α → Bool) (pivot : α) : List α → Nat → Nat
  | [], first => first
  | x :: xs, first => if lt x pivot then scanUp lt pivot xs (first + 1) else first

/-- The statements `--last; while (comp(pivot, last)) --last;` over the elements below
`last`, nearest first: the new `last`. -/
def scanDown {α : Type} (lt : α → α → Bool) (pivot : α) : List α → Nat → Nat
  | [], last => last
  | x :: xs, last => if lt pivot x then scanDown lt pivot xs (last - 1) else last - 1

/-- `std::__unguarded_partition(first, last, pivot, comp)`: the iterator returned and
the range afterwards.  The first argument bounds the number of rounds; every round moves
`first` up, so as many rounds as the range has elements are enough
(`unguardedPartition_enough`). -/
def unguardedPartition {α : Type} (lt : α → α → Bool) :
    Nat → List α → Nat → Nat → Nat → Nat × List α
  | 0, l, first, _, _ => (first, l)
  | fuel + 1, l, first, last, pivot =>
    match l[pivot]? with
    | none => (first, l)
    | some pv =>
      let first1 := scanUp lt pv (l.drop first) first
      let last1 := scanDown lt pv (l.take last).reverse last
      if first1 < last1 then
        unguardedPartition lt fuel (iterSwap l first1 last1) (first1 + 1) last1 pivot
      else (first1, l)

/-- `std::__unguarded_partition_pivot(first, last, comp)`. -/
def unguardedPartitionPivot {α : Type} (lt : α → α → Bool) (l : List α) : Nat × List α :=
  unguardedPartition lt l.length
    (moveMedianToFirst lt l 0 1 (l.length / 2) (l.length - 1)) 1 l.length 0

/-- `std::__push_heap(first, holeIndex, topIndex, value, comp)`, the value sitting in the
hole.  The first argument bounds the number of rounds; every round moves the hole up, so
`len` rounds are enough (`pushHeap_enough`). -/
def pushHeap {α : Type} (lt : α → α → Bool) : Nat → List α → Nat → Nat → List α
  | 0, l, _, _ => l
  | fuel + 1, l, hole, top =>
    if hole > top then
      match l[(hole - 1) / 2]?, l[hole]? with
      | some p, some v =>
        if lt p v then
          pushHeap lt fuel (iterSwap l hole ((hole - 1) / 2)) ((hole - 1) / 2) top
        else l
      | _, _ => l
    else l

/-- The first loop of `std::__adjust_heap`: the hole moves down to the greater child
while it has two children; the hole index and the range afterwards.  The first argument
bounds the number of rounds; every round moves the hole down, so `len` rounds are enough
(`adjustHeapDown_enough`). -/
def adjustHeapDown {α : Type} (lt : α → α → Bool) :
    Nat → List α → Nat → Nat → Nat × List α
  | 0, l, hole, _ => (hole, l)
  | fuel + 1, l, hole, len =>
    if hole < (len - 1) / 2 then
      match l[2 * (hole + 1)]?, l[2 * (hole + 1) - 1]? with
      | some x, some y =>
        adjustHeapDown lt fuel
          (iterSwap l hole (if lt x y then 2 * (hole + 1) - 1 else 2 * (hole + 1)))
          (if lt x y then 2 * (hole + 1) - 1 else 2 * (hole + 1)) len
      | _, _ => (hole, l)
    else (hole, l)

/-- The step of `std::__adjust_heap` for a last parent with a single child. -/
def adjustHeapLast {α : Type} (len : Nat) (d : Nat × List α) : Nat × List α :=
  if len % 2 = 0 ∧ d.1 = (len - 2) / 2 then
    (2 * (d.1 + 1) - 1, iterSwap d.2 d.1 (2 * (d.1 + 1) - 1))
  else d

/-- `std::__adjust_heap(first, holeIndex, len, value, comp)`, the value sitting in the
hole. -/
def adjustHeap {α : Type} (lt : α → α → Bool) (l : List α) (hole len : Nat) : List α :=
  pushHeap lt len (adjustHeapLast len (adjustHeapDown lt len l hole len)).2
    (adjustHeapLast len (adjustHeapDown lt len l hole len)).1 hole

/-- The loop of `std::__make_heap` from `parent` down to 0. -/
def makeHeapFrom {α : Type} (lt : α → α → Bool) (len : Nat) : Nat → List α → List α
  | 0, l => adjustHeap lt l 0 len
  | parent + 1, l => makeHeapFrom lt len parent (adjustHeap lt l (parent + 1) len)

/-- `std::__make_heap(first, last, comp)`. -/
def makeHeap {α : Type} (lt : α → α → Bool) (l : List α) : List α :=
  if l.length < 2 then l else makeHeapFrom lt l.length ((l.length - 2) / 2) l

/-- `std::__sort_heap(first, first + last, comp)`: `__pop_heap` while more than one
element is left. -/
def sortHeap {α : Type} (lt : α → α → Bool) : Nat → List α → List α
  | 0, l => l
  | last + 1, l =>
    if last + 1 > 1 then sortHeap lt last (adjustHeap lt (iterSwap l 0 last) 0 last) else l

/-- `std::__partial_sort(first, last, last, comp)`: heap sort of the range. -/
def partialSortAll {α : Type} (lt : α → α → Bool) (l : List α) : List α :=
  sortHeap lt l.length (makeHeap lt l)

/-- `std::__introsort_loop(first, last, depth_limit, comp)`: the part right of the cut
is sorted by the recursive call, the part left of it by the next round of the loop. -/
def introsortLoop {α : Type} (lt : α → α → Bool) : Nat → List α → List α
  | 0, l => if l.length > 16 then partialSortAll lt l else l
  | depth + 1, l =>
    if l.length > 16 then
      introsortLoop lt depth
          ((unguardedPartitionPivot lt l).2.take (unguardedPartitionPivot lt l).1)
        ++ introsortLoop lt depth
          ((unguardedPartitionPivot lt l).2.drop (unguardedPartitionPivot lt l).1)
    else l

/-- The loop of `std::__unguarded_linear_insert` over the elements before the position
of `val`, nearest first: these elements with `val` put in. -/
def linearInsertBack {α : Type} (lt : α → α → Bool) (val : α) : List α → List α
  | [] => [val]
  | next :: rest =>
    if lt val next then next :: linearInsertBack lt val rest else val :: next :: rest

/-- `std::__unguarded_linear_insert(last, comp)` for the elements `p` before `last` and
the value `val` at `last`. -/
def unguardedLinearInsert {α : Type} (lt : α → α → Bool) (val : α) (p : List α) : List α :=
  (linearInsertBack lt val p.reverse).reverse

/-- The loop of `std::__insertion_sort`: `p` holds the elements before `i`, the second
list the elements from `i` on. -/
def insertionLoop {α : Type} (lt : α → α → Bool) : List α → List α → List α
  | p, [] => p
  | [], x :: xs => insertionLoop lt [x] xs
  | f :: p, x :: xs =>
    if lt x f then insertionLoop lt (x :: f :: p) xs
    else insertionLoop lt (unguardedLinearInsert lt x (f :: p)) xs

/-- The loop of `std::__unguarded_insertion_sort`. -/
def unguardedInsertionLoop {α : Type} (lt : α → α → Bool) : List α → List α → List α
  | p, [] => p
  | p, x :: xs => unguardedInsertionLoop lt (unguardedLinearInsert lt x p) xs

/-- `std::__final_insertion_sort(first, last, comp)`. -/
def finalInsertionSort {α : Type} (lt : α → α → Bool) (l : List α) : List α :=
  if l.length > 16 then
    unguardedInsertionLoop lt (insertionLoop lt [] (l.take 16)) (l.drop 16)
  else insertionLoop lt [] l

/-- `std::sort(first, last, comp)` of libstdc++. -/
def sort {α : Type} (lt : α → α → Bool) (l : List α) : List α :=
  if l.length = 0 then l
  else finalInsertionSort lt (introsortLoop lt (lg l.length l.length * 2) l)

end libstdcxx

/-! ## The repository -/

/-- The class `StudentRepository`: the vector `data_`. -/
structure StudentRepository where
  data_ : List StudentObj
  deriving DecidableEq, Repr

namespace StudentRepository

/-- A default-constructed repository. -/
def empty : StudentRepository := ⟨[]⟩

/-- The loop of `findByRoll` over the vector: the first element whose roll is `r`. -/
def findByRollIn (r : Int) : List StudentObj → Option StudentObj
  | [] => none
  | p :: ps => if p.roll = r then some p else findByRollIn r ps

/-- `StudentRepository::findByRoll`: the pointee found, or `none` for `nullptr`. -/
def findByRoll (repo : StudentRepository) (r : Int) : Option StudentObj :=
  findByRollIn r repo.data_

/-- `StudentRepository::add`. -/
def add (repo : StudentRepository) (s : StudentObj) : Outcome Unit × StudentRepository :=
  match repo.findByRoll s.roll with
  | some _ => (.error (.runtime_error "Duplicate roll"), repo)
  | none => (.ok (), { data_ := repo.data_ ++ [s] })

/-- `StudentRepository::all`. -/
def all (repo : StudentRepository) : List StudentObj := repo.data_

/-- The rolls of the held entities, in iteration order. -/
def rolls (repo : StudentRepository) : List Int := repo.data_.map StudentObj.roll

/-- The repository after a sequence of `add` calls, each succeeding or throwing. -/
def addAll (repo : StudentRepository) : List StudentObj → StudentRepository
  | [] => repo
  | s :: ss => addAll (repo.add s).2 ss

/-- `StudentRepository::removeByRoll`: the value returned and the repository
afterwards (`remove_if`, then `erase` of the tail when the tail is not empty). -/
def removeByRoll (repo : StudentRepository) (r : Int) : Bool × StudentRepository :=
  let kept := remove_if (fun p => decide (p.roll = r)) repo.data_
  if kept.length ≠ repo.data_.length then (true, { data_ := kept })
  else (false, repo)

/-- The vector after `f` has mutated, in place, the object `findByRoll r` points to. -/
def mutateFound (r : Int) (f : StudentObj → StudentObj) : List StudentObj → List StudentObj
  | [] => []
  | p :: ps => if p.roll = r then f p :: ps else p :: mutateFound r f ps

/-- The loop of `findByName`: `res` after the remaining elements have been visited. -/
def findByNameIn (n : String) : List StudentObj → List StudentObj → List StudentObj
  | res, [] => res
  | res, p :: ps => findByNameIn n (if p.name = n then res ++ [p] else res) ps

/-- `StudentRepository::findByName`: the vector returned (the pointees, in the order of
the pointers) and the repository afterwards. -/
def findByName (repo : StudentRepository) (n : String) :
    List StudentObj × StudentRepository :=
  (findByNameIn n [] repo.data_, repo)

/-- `StudentRepository::sortByRoll`, for an implementation of `std::sort`. -/
def sortByRoll (impl : StdSort) (repo : StudentRepository) : StudentRepository :=
  { data_ := impl.run repo.data_ }

end StudentRepository

/-! ## The application layer -/

/-- The class `App`: the repository `repo_`. -/
structure App where
  repo_ : StudentRepository
  deriving DecidableEq, Repr

/-- The values `App::addStudent` reads from the console: the name, the age, the answer
to "Manual roll?", the roll read after a yes, the roll read by "Enter roll: " in the
honors branch, the scholarship, the answer to "Add address?" and the address. -/
structure AddInput where
  name : String
  age : Int
  manualRoll : Bool
  roll : Int
  honorsRoll : Int
  scholarship : Double
  addAddress : Bool
  address : Address
  deriving DecidableEq, Repr

/-- The values `App::update` reads from the console: the roll to look up, the menu
choice, and the new value the chosen branch reads. -/
structure UpdateInput where
  r : Int
  op : Int
  newName : String
  newAge : Int
  newRoll : Int
  newAddress : Address
  deriving DecidableEq, Repr

namespace App

/-- A default-constructed `App`. -/
def init : App := ⟨StudentRepository.empty⟩

/-- The construction step of `App::addStudent`: the object made (or the exception) and
the auto-roll counter afterwards. -/
def makeStudent (seed : Int) (honors : Bool) (inp : AddInput) : Outcome StudentObj × Int :=
  let roll : Int := if inp.manualRoll then inp.roll else 0
  if honors then
    let roll := if roll ≤ 0 then inp.honorsRoll else roll
    match HonorsStudent.ctor inp.name inp.age roll inp.scholarship with
    | .error e => (.error e, seed)
    | .ok h => (.ok (.honors h), seed)
  else if roll > 0 then
    match Student.ctor inp.name inp.age roll with
    | .error e => (.error e, seed)
    | .ok s => (.ok (.student s), seed)
  else
    match Student.ctorAuto seed inp.name inp.age with
    | (.error e, seed1) => (.error e, seed1)
    | (.ok s, seed1) => (.ok (.student s), seed1)

/-- `App::addStudent`, with the auto-roll counter threaded: the application and the
counter afterwards.  Every exception is caught inside the function. -/
def addStudent (app : App) (seed : Int) (honors : Bool) (inp : AddInput) : App × Int :=
  match makeStudent seed honors inp with
  | (.error _, seed1) => (app, seed1)
  | (.ok s, seed1) =>
    let s1 := if inp.addAddress then s.withBase (s.base.setAddress inp.address) else s
    ({ repo_ := (app.repo_.add s1).2 }, seed1)

/-- The effect of the chosen branch of `App::update` on the object found. -/
def updateObj (inp : UpdateInput) (p : StudentObj) : StudentObj :=
  if inp.op = 1 then p.withBase (p.base.setName inp.newName).2
  else if inp.op = 2 then p.withBase (p.base.setAge inp.newAge).2
  else if inp.op = 3 then p.withBase (p.base.setRoll inp.newRoll).2
  else if inp.op = 4 then p.withBase (p.base.setAddress inp.newAddress)
  else p

/-- `App::update`: the object `findByRoll` returns is mutated in place; nothing happens
when the roll is not found.  Every exception is caught inside the function. -/
def update (app : App) (inp : UpdateInput) : App :=
  match app.repo_.findByRoll inp.r with
  | none => app
  | some _ => { repo_ := { data_ := StudentRepository.mutateFound inp.r (updateObj inp) app.repo_.data_ } }

/-- `App::remove`. -/
def remove (app : App) (r : Int) : App :=
  { repo_ := (app.repo_.removeByRoll r).2 }

end App

end SMS

/-! ## Predicates and histories used to state the properties -/

namespace SMS

/-- The field invariant of a `Student`: non-empty name, age in `[0,130]`, roll `> 0`. -/
def Student.Valid (s : Student) : Prop :=
  s.name ≠ "" ∧ 0 ≤ s.age ∧ s.age ≤ 130 ∧ 0 < s.roll

/-- Whether a call in `ops` removes the course code `k`. -/
def removedLater (k : String) : List StudentOp → Bool
  | [] => false
  | .removeCourseByCode k1 :: ops => decide (k1 = k) || removedLater k ops
  | _ :: ops => removedLater k ops

/-- The courses passed to the `addCourse` calls of `ops` that no later
`removeCourseByCode` call of `ops` removes, in the order of the calls. -/
def survivingAdds : List StudentOp → List Course
  | [] => []
  | .addCourse c :: ops =>
    if removedLater c.code ops then survivingAdds ops else c :: survivingAdds ops
  | _ :: ops => survivingAdds ops

/-- For every course code of the list, its first course only, the order kept. -/
def keepFirstByCode : List Course → List Course
  | [] => []
  | c :: cs => c :: (keepFirstByCode cs).filter (fun x => decide (x.code ≠ c.code))

/-- Students with the given names, in this order, who all have age 20 and roll 1. -/
def equalRolls (names : List String) : List StudentObj :=
  names.map (fun n => StudentObj.student ⟨⟨n, 20⟩, 1, Address.empty, []⟩)

/-- A call of one of the two `Student` constructors. -/
inductive CtorCall where
  | explicit (n : String) (a : Int) (r : Int)
  | auto (n : String) (a : Int)
  deriving DecidableEq, Repr

/-- One constructor call run against the auto-roll counter: the outcome and the counter
afterwards.  `Student(n, a, r)` does not touch the counter. -/
def CtorCall.run (seed : Int) : CtorCall → Outcome Student × Int
  | .explicit n a r => (Student.ctor n a r, seed)
  | .auto n a => Student.ctorAuto seed n a

/-- The counter after a sequence of constructor calls. -/
def seedAfter (seed : Int) : List CtorCall → Int
  | [] => seed
  | c :: cs => seedAfter (c.run seed).2 cs

/-- The rolls received by the auto-roll constructions that succeed in a sequence of
constructor calls, in the order of the calls. -/
def autoRolls (seed : Int) : List CtorCall → List Int
  | [] => []
  | .explicit n a r :: cs => autoRolls ((CtorCall.explicit n a r).run seed).2 cs
  | .auto n a :: cs =>
    match (CtorCall.auto n a).run seed with
    | (.ok s, seed1) => s.roll :: autoRolls seed1 cs
    | (.error _, seed1) => autoRolls seed1 cs

end SMS

/-! ## Lemmas on number formatting -/

namespace SMS

theorem decimalDigits_length (k : Nat) : ∀ n : Nat, (decimalDigits k n).length = k := by
  induction k with
  | zero => intro n; rfl
  | succ k ih => intro n; simp [decimalDigits, ih]

theorem digitChar_isDigit (d : Nat) (h : d < 10) : (Nat.digitChar d).isDigit = true := by
  interval_cases d <;> rfl

theorem decimalDigits_isDigit (k : Nat) :
    ∀ n : Nat, ∀ c ∈ decimalDigits k n, c.isDigit = true := by
  induction k with
  | zero => intro n c hc; simp [decimalDigits] at hc
  | succ k ih =>
    intro n c hc
    simp only [decimalDigits, List.mem_append, List.mem_singleton] at hc
    rcases hc with hc | hc
    · exact ih _ c hc
    · rw [hc]; exact digitChar_isDigit _ (Nat.mod_lt _ (by decide))

end SMS

/-! ## Lemmas on the entity model -/

namespace SMS

theorem Student.valid_iff (s : Student) :
    s.Valid ↔ s.name_ ≠ "" ∧ 0 ≤ s.age_ ∧ s.age_ ≤ 130 ∧ 0 < s.roll_ := Iff.rfl

theorem Student.ctor_valid {n : String} {a r : Int} {s : Student}
    (h : Student.ctor n a r = .ok s) : s.Valid := by
  unfold Student.ctor Person.ctor Person.ensureValidAge at h
  by_cases hn : n = ""
  · simp [hn] at h
  · by_cases ha : a < 0 ∨ a > 130
    · simp [hn, ha] at h
    · by_cases hr : r ≤ 0
      · simp [hn, ha, hr] at h
      · simp only [hn, ha, hr, if_false, Except.ok.injEq] at h
        subst h
        rw [Student.valid_iff]
        refine ⟨hn, ?_, ?_, ?_⟩ <;> dsimp only <;> omega

theorem wrapInt_of_inRange {x : Int} (h0 : -2147483648 ≤ x) (h1 : x ≤ 2147483647) :
    wrapInt x = x := by
  unfold wrapInt
  omega

theorem Student.ctorAuto_valid {seed : Int} {n : String} {a : Int} {s : Student}
    (h0 : rollSeedInit ≤ seed) (h1 : seed < INT_MAX)
    (h : (Student.ctorAuto seed n a).1 = .ok s) : s.Valid := by
  unfold rollSeedInit at h0
  unfold INT_MAX at h1
  unfold Student.ctorAuto Person.ctor Person.ensureValidAge at h
  by_cases hn : n = ""
  · simp [hn] at h
  · by_cases ha : a < 0 ∨ a > 130
    · simp [hn, ha] at h
    · simp only [hn, ha, if_false, Except.ok.injEq] at h
      subst h
      rw [Student.valid_iff]
      have hw : wrapInt (seed + 1) = seed + 1 := wrapInt_of_inRange (by omega) (by omega)
      refine ⟨hn, ?_, ?_, ?_⟩ <;> dsimp only <;> omega

theorem Student.apply_valid (s : Student) (op : StudentOp) (h : s.Valid) :
    (s.apply op).Valid := by
  rw [Student.valid_iff] at h
  obtain ⟨hn, h0, h1, hr⟩ := h
  cases op with
  | setName n =>
    by_cases hne : n = ""
    · simp [Student.apply, Student.setName, Person.setName, hne, Student.valid_iff, hn, h0, h1, hr]
    · simp [Student.apply, Student.setName, Person.setName, hne, Student.valid_iff, h0, h1, hr]
  | setAge a =>
    by_cases ha : a < 0 ∨ a > 130
    · simp [Student.apply, Student.setAge, Person.setAge, Person.ensureValidAge, ha,
        Student.valid_iff, hn, h0, h1, hr]
    · have ha0 : 0 ≤ a := by omega
      have ha1 : a ≤ 130 := by omega
      simp [Student.apply, Student.setAge, Person.setAge, Person.ensureValidAge, ha,
        Student.valid_iff, hn, ha0, ha1, hr]
  | setRoll r =>
    by_cases hr0 : r ≤ 0
    · simp [Student.apply, Student.setRoll, hr0, Student.valid_iff, hn, h0, h1, hr]
    · have hr1 : 0 < r := by omega
      simp [Student.apply, Student.setRoll, hr0, Student.valid_iff, hn, h0, h1, hr1]
  | setAddress a =>
    simp [Student.apply, Student.setAddress, Student.valid_iff, hn, h0, h1, hr]
  | addCourse c =>
    show (s.addCourse c).Valid
    unfold Student.addCourse
    by_cases hf : foundIf (fun x => decide (x.code = c.code)) s.courses_ = true
    · simp [hf, Student.valid_iff, hn, h0, h1, hr]
    · simp [hf, Student.valid_iff, hn, h0, h1, hr]
  | removeCourseByCode code =>
    show (s.removeCourseByCode code).2.Valid
    unfold Student.removeCourseByCode
    by_cases hf : (remove_if (fun c => decide (c.code = code)) s.courses_).length
        ≠ s.courses_.length
    · simp [hf, Student.valid_iff, hn, h0, h1, hr]
    · simp [hf, Student.valid_iff, hn, h0, h1, hr]

theorem Student.applyAll_valid (ops : List StudentOp) :
    ∀ s : Student, s.Valid → (s.applyAll ops).Valid := by
  induction ops with
  | nil => intro s h; exact h
  | cons op ops ih => intro s h; exact ih _ (Student.apply_valid s op h)

end SMS

/-! ## Lemmas on the auto-roll counter -/

namespace SMS

theorem ctorAuto_error {seed : Int} {n : String} {a : Int} {e : Error}
    (h : Person.ctor n a = .error e) : Student.ctorAuto seed n a = (.error e, seed) := by
  simp [Student.ctorAuto, h]

theorem ctorAuto_ok {seed : Int} {n : String} {a : Int} {p : Person}
    (h : Person.ctor n a = .ok p) :
    Student.ctorAuto seed n a =
      (.ok { toPerson := p, roll_ := wrapInt (seed + 1), address_ := Address.empty,
             courses_ := [] }, wrapInt (seed + 1)) := by
  simp [Student.ctorAuto, h]

theorem autoRolls_auto_error {seed : Int} {n : String} {a : Int} {e : Error}
    (cs : List CtorCall) (h : Person.ctor n a = .error e) :
    autoRolls seed (.auto n a :: cs) = autoRolls seed cs ∧
      seedAfter seed (.auto n a :: cs) = seedAfter seed cs := by
  simp [autoRolls, seedAfter, CtorCall.run, ctorAuto_error h]

theorem autoRolls_auto_ok {seed : Int} {n : String} {a : Int} {p : Person}
    (cs : List CtorCall) (h : Person.ctor n a = .ok p) :
    autoRolls seed (.auto n a :: cs) = wrapInt (seed + 1) :: autoRolls (wrapInt (seed + 1)) cs ∧
      seedAfter seed (.auto n a :: cs) = seedAfter (wrapInt (seed + 1)) cs := by
  simp [autoRolls, seedAfter, CtorCall.run, ctorAuto_ok h, Student.roll]

theorem autoRolls_explicit (seed : Int) (n : String) (a r : Int) (cs : List CtorCall) :
    autoRolls seed (.explicit n a r :: cs) = autoRolls seed cs ∧
      seedAfter seed (.explicit n a r :: cs) = seedAfter seed cs := by
  simp [autoRolls, seedAfter, CtorCall.run]

/-- From a counter that the successful auto-roll constructions of `cs` do not push past
`INT_MAX`, the `k`-th of them (counting from 0) receives `seed + (k + 1)` and the counter
ends at `seed` plus their number. -/
theorem autoRolls_get (cs : List CtorCall) :
    ∀ seed : Int, -2147483648 ≤ seed → seed + (autoRolls seed cs).length ≤ INT_MAX →
      (∀ k : Nat, k < (autoRolls seed cs).length →
        (autoRolls seed cs)[k]? = some (seed + ((k : Int) + 1))) ∧
      seedAfter seed cs = seed + (autoRolls seed cs).length := by
  induction cs with
  | nil =>
    intro seed _ _
    simp [autoRolls, seedAfter]
  | cons c cs ih =>
    intro seed hlo hhi
    cases c with
    | explicit n a r =>
      rw [(autoRolls_explicit seed n a r cs).1, (autoRolls_explicit seed n a r cs).2]
      rw [(autoRolls_explicit seed n a r cs).1] at hhi
      exact ih seed hlo hhi
    | auto n a =>
      cases hp : Person.ctor n a with
      | error e =>
        rw [(autoRolls_auto_error cs hp).1, (autoRolls_auto_error cs hp).2]
        rw [(autoRolls_auto_error cs hp).1] at hhi
        exact ih seed hlo hhi
      | ok p =>
        rw [(autoRolls_auto_ok cs hp).1, (autoRolls_auto_ok cs hp).2]
        rw [(autoRolls_auto_ok cs hp).1] at hhi
        simp only [List.length_cons, Nat.cast_add, Nat.cast_one] at hhi
        unfold INT_MAX at hhi ih
        have hw : wrapInt (seed + 1) = seed + 1 :=
          wrapInt_of_inRange (by omega) (by omega)
        rw [hw] at hhi ⊢
        obtain ⟨ih1, ih2⟩ := ih (seed + 1) (by omega) (by omega)
        refine ⟨?_, ?_⟩
        · intro k hk
          cases k with
          | zero => simp
          | succ k =>
            simp only [List.length_cons, Nat.add_lt_add_iff_right] at hk
            simp only [List.getElem?_cons_succ, ih1 k hk, Nat.cast_add, Nat.cast_one]
            congr 1
            omega
        · rw [ih2]
          simp only [List.length_cons, Nat.cast_add, Nat.cast_one]
          omega

end SMS

/-! ## Lemmas on sorting -/

namespace SMS

theorem sorted_rolls_of_sorted {l : List StudentObj}
    (h : l.Pairwise (fun a b => rollLess b a = false)) :
    (l.map StudentObj.roll).Pairwise (fun x y => x ≤ y) := by
  rw [List.pairwise_map]
  refine h.imp ?_
  intro a b hab
  simp only [rollLess, decide_eq_false_iff_not] at hab
  omega

theorem strict_of_sorted_nodup {l : List StudentObj}
    (h : l.Pairwise (fun a b => rollLess b a = false))
    (hd : (l.map StudentObj.roll).Nodup) :
    l.Pairwise (fun a b => a.roll < b.roll) := by
  have hne : l.Pairwise (fun a b => a.roll ≠ b.roll) := List.pairwise_map.1 hd
  refine (h.and hne).imp ?_
  intro a b hab
  obtain ⟨h1, h2⟩ := hab
  simp only [rollLess, decide_eq_false_iff_not] at h1
  omega

/-- Two arrangements of the same entities that are both sorted by roll coincide when the
rolls are pairwise distinct. -/
theorem sorted_perm_unique {l1 l2 : List StudentObj} (hp : l1.Perm l2)
    (h1 : l1.Pairwise (fun a b => rollLess b a = false))
    (h2 : l2.Pairwise (fun a b => rollLess b a = false))
    (hd : (l1.map StudentObj.roll).Nodup) : l1 = l2 := by
  have hd2 : (l2.map StudentObj.roll).Nodup := (hp.map StudentObj.roll).nodup_iff.1 hd
  haveI : IsAntisymm StudentObj (fun a b => a.roll < b.roll) :=
    ⟨fun a b hab hba => absurd hab (by omega)⟩
  exact List.eq_of_perm_of_sorted hp (strict_of_sorted_nodup h1 hd)
    (strict_of_sorted_nodup h2 hd2)

/-- Two arrangements of the same entities that are both sorted by roll show the same
sequence of rolls. -/
theorem sorted_perm_rolls {l1 l2 : List StudentObj} (hp : l1.Perm l2)
    (h1 : l1.Pairwise (fun a b => rollLess b a = false))
    (h2 : l2.Pairwise (fun a b => rollLess b a = false)) :
    l1.map StudentObj.roll = l2.map StudentObj.roll :=
  List.eq_of_perm_of_sorted (hp.map StudentObj.roll) (sorted_rolls_of_sorted h1)
    (sorted_rolls_of_sorted h2)

end SMS

/-! ## Lemmas on the `std::sort` of libstdc++ -/

namespace SMS

theorem cons_set_perm {α : Type} (a y : α) :
    ∀ (t : List α) (j : Nat), t[j]? = some y → (y :: t.set j a).Perm (a :: t) := by
  intro t
  induction t with
  | nil => intro j h; simp at h
  | cons b t ih =>
    intro j h
    cases j with
    | zero =>
      simp only [List.getElem?_cons_zero, Option.some.injEq] at h
      subst h
      simp only [List.set_cons_zero]
      exact List.Perm.swap a b t
    | succ j =>
      simp only [List.getElem?_cons_succ] at h
      simp only [List.set_cons_succ]
      exact (List.Perm.swap b y _).trans (((ih j h).cons b).trans (List.Perm.swap a b t))

theorem set_set_perm {α : Type} (x y : α) :
    ∀ (l : List α) (i j : Nat), l[i]? = some x → l[j]? = some y →
      ((l.set i y).set j x).Perm l := by
  intro l
  induction l with
  | nil => intro i j hi _; simp at hi
  | cons a t ih =>
    intro i j hi hj
    cases i with
    | zero =>
      simp only [List.getElem?_cons_zero, Option.some.injEq] at hi
      subst hi
      cases j with
      | zero =>
        simp only [List.getElem?_cons_zero, Option.some.injEq] at hj
        subst hj
        simp
      | succ j =>
        simp only [List.getElem?_cons_succ] at hj
        simp only [List.set_cons_zero, List.set_cons_succ]
        exact cons_set_perm a y t j hj
    | succ i =>
      simp only [List.getElem?_cons_succ] at hi
      cases j with
      | zero =>
        simp only [List.getElem?_cons_zero, Option.some.injEq] at hj
        subst hj
        simp only [List.set_cons_zero, List.set_cons_succ]
        exact cons_set_perm a x t i hi
      | succ j =>
        simp only [List.getElem?_cons_succ] at hj
        simp only [List.set_cons_succ]
        exact (ih i j hi hj).cons a

theorem iterSwap_perm {α : Type} (l : List α) (i j : Nat) :
    (libstdcxx.iterSwap l i j).Perm l := by
  unfold libstdcxx.iterSwap
  cases hi : l[i]? with
  | none => exact List.Perm.refl l
  | some x =>
    cases hj : l[j]? with
    | none => exact List.Perm.refl l
    | some y => exact set_set_perm x y l i j hi hj

theorem moveMedianToFirst_perm {α : Type} (lt : α → α → Bool) (l : List α)
    (result a b c : Nat) : (libstdcxx.moveMedianToFirst lt l result a b c).Perm l := by
  unfold libstdcxx.moveMedianToFirst
  split
  · split_ifs <;> exact iterSwap_perm _ _ _
  · exact List.Perm.refl l

theorem unguardedPartition_perm {α : Type} (lt : α → α → Bool) (fuel : Nat) :
    ∀ (l : List α) (first last pivot : Nat),
      (libstdcxx.unguardedPartition lt fuel l first last pivot).2.Perm l := by
  induction fuel with
  | zero => intro l first last pivot; exact List.Perm.refl l
  | succ fuel ih =>
    intro l first last pivot
    unfold libstdcxx.unguardedPartition
    split
    · exact List.Perm.refl l
    · dsimp only
      split_ifs
      · exact (ih _ _ _ _).trans (iterSwap_perm _ _ _)
      · exact List.Perm.refl l

theorem unguardedPartitionPivot_perm {α : Type} (lt : α → α → Bool) (l : List α) :
    (libstdcxx.unguardedPartitionPivot lt l).2.Perm l :=
  (unguardedPartition_perm lt _ _ _ _ _).trans (moveMedianToFirst_perm lt l _ _ _ _)

theorem pushHeap_perm {α : Type} (lt : α → α → Bool) (fuel : Nat) :
    ∀ (l : List α) (hole top : Nat), (libstdcxx.pushHeap lt fuel l hole top).Perm l := by
  induction fuel with
  | zero => intro l hole top; exact List.Perm.refl l
  | succ fuel ih =>
    intro l hole top
    unfold libstdcxx.pushHeap
    split_ifs
    · split
      · split_ifs
        · exact (ih _ _ _).trans (iterSwap_perm _ _ _)
        · exact List.Perm.refl l
      · exact List.Perm.refl l
    · exact List.Perm.refl l

theorem adjustHeapDown_perm {α : Type} (lt : α → α → Bool) (fuel : Nat) :
    ∀ (l : List α) (hole len : Nat),
      (libstdcxx.adjustHeapDown lt fuel l hole len).2.Perm l := by
  induction fuel with
  | zero => intro l hole len; exact List.Perm.refl l
  | succ fuel ih =>
    intro l hole len
    unfold libstdcxx.adjustHeapDown
    split_ifs
    · split
      · exact (ih _ _ _).trans (iterSwap_perm _ _ _)
      · exact List.Perm.refl l
    · exact List.Perm.refl l

theorem adjustHeapLast_perm {α : Type} (len : Nat) (d : Nat × List α) :
    (libstdcxx.adjustHeapLast len d).2.Perm d.2 := by
  unfold libstdcxx.adjustHeapLast
  split_ifs
  · exact iterSwap_perm _ _ _
  · exact List.Perm.refl _

theorem adjustHeap_perm {α : Type} (lt : α → α → Bool) (l : List α) (hole len : Nat) :
    (libstdcxx.adjustHeap lt l hole len).Perm l :=
  (pushHeap_perm lt _ _ _ _).trans
    ((adjustHeapLast_perm len _).trans (adjustHeapDown_perm lt _ _ _ _))

theorem makeHeapFrom_perm {α : Type} (lt : α → α → Bool) (len parent : Nat) :
    ∀ l : List α, (libstdcxx.makeHeapFrom lt len parent l).Perm l := by
  induction parent with
  | zero => intro l; exact adjustHeap_perm lt l 0 len
  | succ parent ih =>
    intro l
    exact (ih _).trans (adjustHeap_perm lt l (parent + 1) len)

theorem makeHeap_perm {α : Type} (lt : α → α → Bool) (l : List α) :
    (libstdcxx.makeHeap lt l).Perm l := by
  unfold libstdcxx.makeHeap
  split_ifs
  · exact List.Perm.refl l
  · exact makeHeapFrom_perm lt _ _ l

theorem sortHeap_perm {α : Type} (lt : α → α → Bool) (last : Nat) :
    ∀ l : List α, (libstdcxx.sortHeap lt last l).Perm l := by
  induction last with
  | zero => intro l; exact List.Perm.refl l
  | succ last ih =>
    intro l
    unfold libstdcxx.sortHeap
    split_ifs
    · exact (ih _).trans ((adjustHeap_perm lt _ _ _).trans (iterSwap_perm _ _ _))
    · exact List.Perm.refl l

theorem partialSortAll_perm {α : Type} (lt : α → α → Bool) (l : List α) :
    (libstdcxx.partialSortAll lt l).Perm l :=
  (sortHeap_perm lt _ _).trans (makeHeap_perm lt l)

theorem introsortLoop_perm {α : Type} (lt : α → α → Bool) (depth : Nat) :
    ∀ l : List α, (libstdcxx.introsortLoop lt depth l).Perm l := by
  induction depth with
  | zero =>
    intro l
    unfold libstdcxx.introsortLoop
    split_ifs
    · exact partialSortAll_perm lt l
    · exact List.Perm.refl l
  | succ depth ih =>
    intro l
    unfold libstdcxx.introsortLoop
    split_ifs
    · refine ((ih _).append (ih _)).trans ?_
      rw [List.take_append_drop]
      exact unguardedPartitionPivot_perm lt l
    · exact List.Perm.refl l

theorem linearInsertBack_perm {α : Type} (lt : α → α → Bool) (val : α) :
    ∀ rp : List α, (libstdcxx.linearInsertBack lt val rp).Perm (val :: rp) := by
  intro rp
  induction rp with
  | nil => exact List.Perm.refl _
  | cons next rest ih =>
    unfold libstdcxx.linearInsertBack
    split_ifs
    · exact (ih.cons next).trans (List.Perm.swap val next rest)
    · exact List.Perm.refl _

theorem unguardedLinearInsert_perm {α : Type} (lt : α → α → Bool) (val : α) (p : List α) :
    (libstdcxx.unguardedLinearInsert lt val p).Perm (val :: p) := by
  unfold libstdcxx.unguardedLinearInsert
  exact (List.reverse_perm _).trans
    ((linearInsertBack_perm lt val _).trans ((List.reverse_perm p).cons val))

theorem insertionLoop_perm {α : Type} (lt : α → α → Bool) (xs : List α) :
    ∀ p : List α, (libstdcxx.insertionLoop lt p xs).Perm (p ++ xs) := by
  induction xs with
  | nil => intro p; cases p <;> simp [libstdcxx.insertionLoop]
  | cons x xs ih =>
    intro p
    cases p with
    | nil =>
      simp only [libstdcxx.insertionLoop, List.nil_append]
      exact ih [x]
    | cons f p =>
      simp only [libstdcxx.insertionLoop]
      split_ifs
      · exact (ih _).trans (@List.perm_middle _ x (f :: p) xs).symm
      · refine (ih _).trans ?_
        refine ((unguardedLinearInsert_perm lt x (f :: p)).append_right xs).trans ?_
        exact (@List.perm_middle _ x (f :: p) xs).symm

theorem unguardedInsertionLoop_perm {α : Type} (lt : α → α → Bool) (xs : List α) :
    ∀ p : List α, (libstdcxx.unguardedInsertionLoop lt p xs).Perm (p ++ xs) := by
  induction xs with
  | nil => intro p; simp [libstdcxx.unguardedInsertionLoop]
  | cons x xs ih =>
    intro p
    simp only [libstdcxx.unguardedInsertionLoop]
    refine (ih _).trans ?_
    refine ((unguardedLinearInsert_perm lt x p).append_right xs).trans ?_
    exact (@List.perm_middle _ x p xs).symm

theorem finalInsertionSort_perm {α : Type} (lt : α → α → Bool) (l : List α) :
    (libstdcxx.finalInsertionSort lt l).Perm l := by
  unfold libstdcxx.finalInsertionSort
  split_ifs
  · refine (unguardedInsertionLoop_perm lt _ _).trans ?_
    refine ((insertionLoop_perm lt (l.take 16) []).append_right _).trans ?_
    simp
  · simpa using insertionLoop_perm lt l []

/-- The `std::sort` of libstdc++ leaves a permutation of the range. -/
theorem libstdcxx_sort_perm {α : Type} (lt : α → α → Bool) (l : List α) :
    (libstdcxx.sort lt l).Perm l := by
  unfold libstdcxx.sort
  split_ifs
  · exact List.Perm.refl l
  · exact (finalInsertionSort_perm lt _).trans (introsortLoop_perm lt _ l)

theorem linearInsertBack_desc (val : StudentObj) :
    ∀ rp : List StudentObj, rp.Pairwise (fun a b => rollLess a b = false) →
      (libstdcxx.linearInsertBack rollLess val rp).Pairwise
        (fun a b => rollLess a b = false) := by
  intro rp
  induction rp with
  | nil => intro _; simp [libstdcxx.linearInsertBack]
  | cons next rest ih =>
    intro h
    rw [List.pairwise_cons] at h
    obtain ⟨h1, h2⟩ := h
    unfold libstdcxx.linearInsertBack
    by_cases hlt : rollLess val next = true
    · rw [if_pos hlt, List.pairwise_cons]
      refine ⟨?_, ih h2⟩
      intro b hb
      rcases List.mem_cons.1 ((linearInsertBack_perm rollLess val rest).mem_iff.1 hb) with hb1 | hb1
      · rw [hb1]
        simp only [rollLess, decide_eq_true_eq] at hlt
        simp only [rollLess, decide_eq_false_iff_not]
        omega
      · exact h1 b hb1
    · rw [if_neg hlt, List.pairwise_cons]
      refine ⟨?_, List.pairwise_cons.2 ⟨h1, h2⟩⟩
      intro b hb
      simp only [rollLess, decide_eq_true_eq] at hlt
      rcases List.mem_cons.1 hb with hb1 | hb1
      · rw [hb1]
        simp only [rollLess, decide_eq_false_iff_not]
        exact hlt
      · have hnb := h1 b hb1
        simp only [rollLess, decide_eq_false_iff_not] at hnb ⊢
        omega

theorem unguardedLinearInsert_sorted (val : StudentObj) (p : List StudentObj)
    (h : p.Pairwise (fun a b => rollLess b a = false)) :
    (libstdcxx.unguardedLinearInsert rollLess val p).Pairwise
      (fun a b => rollLess b a = false) := by
  unfold libstdcxx.unguardedLinearInsert
  rw [List.pairwise_reverse]
  exact linearInsertBack_desc val _ (List.pairwise_reverse.2 h)

theorem insertionLoop_sorted (xs : List StudentObj) :
    ∀ p : List StudentObj, p.Pairwise (fun a b => rollLess b a = false) →
      (libstdcxx.insertionLoop rollLess p xs).Pairwise (fun a b => rollLess b a = false) := by
  induction xs with
  | nil => intro p h; cases p <;> exact h
  | cons x xs ih =>
    intro p h
    cases p with
    | nil =>
      simp only [libstdcxx.insertionLoop]
      exact ih [x] (List.pairwise_singleton _ _)
    | cons f p =>
      simp only [libstdcxx.insertionLoop]
      by_cases hlt : rollLess x f = true
      · rw [if_pos hlt]
        apply ih
        rw [List.pairwise_cons]
        refine ⟨?_, h⟩
        intro b hb
        simp only [rollLess, decide_eq_true_eq] at hlt
        rcases List.mem_cons.1 hb with hb1 | hb1
        · rw [hb1]
          simp only [rollLess, decide_eq_false_iff_not]
          omega
        · have hfb := (List.pairwise_cons.1 h).1 b hb1
          simp only [rollLess, decide_eq_false_iff_not] at hfb ⊢
          omega
      · rw [if_neg hlt]
        exact ih _ (unguardedLinearInsert_sorted x (f :: p) h)

theorem unguardedInsertionLoop_sorted (xs : List StudentObj) :
    ∀ p : List StudentObj, p.Pairwise (fun a b => rollLess b a = false) →
      (libstdcxx.unguardedInsertionLoop rollLess p xs).Pairwise
        (fun a b => rollLess b a = false) := by
  induction xs with
  | nil => intro p h; exact h
  | cons x xs ih =>
    intro p h
    simp only [libstdcxx.unguardedInsertionLoop]
    exact ih _ (unguardedLinearInsert_sorted x p h)

theorem finalInsertionSort_sorted (l : List StudentObj) :
    (libstdcxx.finalInsertionSort rollLess l).Pairwise (fun a b => rollLess b a = false) := by
  unfold libstdcxx.finalInsertionSort
  split_ifs
  · exact unguardedInsertionLoop_sorted _ _ (insertionLoop_sorted _ [] List.Pairwise.nil)
  · exact insertionLoop_sorted _ [] List.Pairwise.nil

/-- The `std::sort` of libstdc++ leaves the range sorted by the comparator of
`sortByRoll`. -/
theorem libstdcxx_sort_sorted (l : List StudentObj) :
    (libstdcxx.sort rollLess l).Pairwise (fun a b => rollLess b a = false) := by
  unfold libstdcxx.sort
  split_ifs with h
  · have hl : l = [] := List.length_eq_zero.1 h
    rw [hl]
    exact List.Pairwise.nil
  · exact finalInsertionSort_sorted _

theorem introsortLoop_small {α : Type} (lt : α → α → Bool) (depth : Nat) (l : List α)
    (h : l.length ≤ 16) : libstdcxx.introsortLoop lt depth l = l := by
  have hn : ¬ l.length > 16 := by omega
  cases depth with
  | zero => simp [libstdcxx.introsortLoop, hn]
  | succ d => simp [libstdcxx.introsortLoop, hn]

/-- On a range of at most 16 elements the `std::sort` of libstdc++ is the insertion
sort. -/
theorem libstdcxx_sort_small {α : Type} (lt : α → α → Bool) (l : List α)
    (h : l.length ≤ 16) : libstdcxx.sort lt l = libstdcxx.insertionLoop lt [] l := by
  have hn : ¬ l.length > 16 := by omega
  unfold libstdcxx.sort
  split_ifs with h0
  · have hl : l = [] := List.length_eq_zero.1 h0
    rw [hl]
    rfl
  · rw [introsortLoop_small lt _ l h]
    simp [libstdcxx.finalInsertionSort, hn]

theorem linearInsertBack_of_head (val : StudentObj) (rp : List StudentObj)
    (h : ∀ a ∈ rp, rollLess val a = false) :
    libstdcxx.linearInsertBack rollLess val rp = val :: rp := by
  cases rp with
  | nil => rfl
  | cons next rest =>
    have hn : ¬ rollLess val next = true := by
      rw [h next (List.mem_cons_self _ _)]
      simp
    simp [libstdcxx.linearInsertBack, hn]

theorem insertionLoop_of_sorted (xs : List StudentObj) :
    ∀ p : List StudentObj, (p ++ xs).Pairwise (fun a b => rollLess b a = false) →
      libstdcxx.insertionLoop rollLess p xs = p ++ xs := by
  induction xs with
  | nil => intro p _; cases p <;> simp [libstdcxx.insertionLoop]
  | cons x xs ih =>
    intro p h
    cases p with
    | nil =>
      simp only [libstdcxx.insertionLoop, List.nil_append]
      exact ih [x] (by simpa using h)
    | cons f p =>
      have hall : ∀ a ∈ f :: p, rollLess x a = false := by
        intro a ha
        rw [List.pairwise_append] at h
        exact h.2.2 a ha x (List.mem_cons_self _ _)
      have hf : ¬ rollLess x f = true := by
        rw [hall f (List.mem_cons_self _ _)]
        simp
      have hins : libstdcxx.unguardedLinearInsert rollLess x (f :: p) = (f :: p) ++ [x] := by
        unfold libstdcxx.unguardedLinearInsert
        rw [linearInsertBack_of_head x _ (fun a ha => hall a (List.mem_reverse.1 ha))]
        simp
      simp only [libstdcxx.insertionLoop]
      rw [if_neg hf, hins, ih _ (by simpa using h)]
      simp

/-- On a range of at most 16 elements that is already sorted the `std::sort` of
libstdc++ moves nothing. -/
theorem libstdcxx_sort_of_sorted (l : List StudentObj) (h : l.length ≤ 16)
    (hs : l.Pairwise (fun a b => rollLess b a = false)) :
    libstdcxx.sort rollLess l = l := by
  rw [libstdcxx_sort_small rollLess l h, insertionLoop_of_sorted l [] (by simpa using hs)]
  rfl

end SMS

namespace SMS

theorem scanUp_ge {α : Type} (lt : α → α → Bool) (pivot : α) :
    ∀ (xs : List α) (first : Nat), first ≤ libstdcxx.scanUp lt pivot xs first := by
  intro xs
  induction xs with
  | nil => intro first; exact Nat.le_refl _
  | cons x xs ih =>
    intro first
    unfold libstdcxx.scanUp
    split_ifs
    · exact Nat.le_trans (Nat.le_succ first) (ih (first + 1))
    · exact Nat.le_refl _

theorem scanDown_le {α : Type} (lt : α → α → Bool) (pivot : α) :
    ∀ (xs : List α) (last : Nat), libstdcxx.scanDown lt pivot xs last ≤ last := by
  intro xs
  induction xs with
  | nil => intro last; exact Nat.le_refl _
  | cons x xs ih =>
    intro last
    unfold libstdcxx.scanDown
    split_ifs
    · exact Nat.le_trans (ih (last - 1)) (Nat.sub_le last 1)
    · exact Nat.sub_le last 1

/-- More rounds than `last - first + 1` do not change the result of the partition: every
round that goes on moves `first` up and never moves `last` up. -/
theorem unguardedPartition_rounds {α : Type} (lt : α → α → Bool) (fuel : Nat) :
    ∀ (k : Nat) (l : List α) (first last pivot : Nat), last ≤ fuel + first →
      libstdcxx.unguardedPartition lt (fuel + 1 + k) l first last pivot
        = libstdcxx.unguardedPartition lt (fuel + 1) l first last pivot := by
  induction fuel with
  | zero =>
    intro k l first last pivot h
    rw [show 0 + 1 + k = k + 1 by omega]
    unfold libstdcxx.unguardedPartition
    cases hp : l[pivot]? with
    | none => rfl
    | some pv =>
      dsimp only
      have h1 := scanUp_ge lt pv (l.drop first) first
      have h2 := scanDown_le lt pv (l.take last).reverse last
      have hn : ¬ libstdcxx.scanUp lt pv (l.drop first) first
          < libstdcxx.scanDown lt pv (l.take last).reverse last := by omega
      rw [if_neg hn, if_neg hn]
  | succ fuel ih =>
    intro k l first last pivot h
    rw [show fuel + 1 + 1 + k = (fuel + 1 + k) + 1 by omega]
    conv_lhs => unfold libstdcxx.unguardedPartition
    conv_rhs => unfold libstdcxx.unguardedPartition
    cases hp : l[pivot]? with
    | none => rfl
    | some pv =>
      dsimp only
      have h1 := scanUp_ge lt pv (l.drop first) first
      have h2 := scanDown_le lt pv (l.take last).reverse last
      split_ifs
      · exact ih k _ _ _ _ (by omega)
      · rfl

/-- The number of rounds `unguardedPartitionPivot` allows for is enough: allowing for
more does not change the result. -/
theorem unguardedPartition_enough {α : Type} (lt : α → α → Bool) (l : List α) (k : Nat) :
    libstdcxx.unguardedPartition lt (l.length + k)
        (libstdcxx.moveMedianToFirst lt l 0 1 (l.length / 2) (l.length - 1)) 1 l.length 0
      = libstdcxx.unguardedPartitionPivot lt l := by
  unfold libstdcxx.unguardedPartitionPivot
  cases hl : l.length with
  | zero =>
    have hnil : l = [] := List.length_eq_zero.1 hl
    subst hnil
    cases k <;> rfl
  | succ n =>
    rw [show n + 1 + k = n + 1 + k from rfl]
    exact unguardedPartition_rounds lt n k _ 1 (n + 1) 0 (by omega)

theorem adjustHeapDown_rounds {α : Type} (lt : α → α → Bool) (fuel : Nat) :
    ∀ (k : Nat) (l : List α) (hole len : Nat), (len - 1) / 2 ≤ fuel + hole →
      libstdcxx.adjustHeapDown lt (fuel + 1 + k) l hole len
        = libstdcxx.adjustHeapDown lt (fuel + 1) l hole len := by
  induction fuel with
  | zero =>
    intro k l hole len h
    rw [show 0 + 1 + k = k + 1 by omega]
    unfold libstdcxx.adjustHeapDown
    have hn : ¬ hole < (len - 1) / 2 := by omega
    rw [if_neg hn, if_neg hn]
  | succ fuel ih =>
    intro k l hole len h
    rw [show fuel + 1 + 1 + k = (fuel + 1 + k) + 1 by omega]
    conv_lhs => unfold libstdcxx.adjustHeapDown
    conv_rhs => unfold libstdcxx.adjustHeapDown
    split_ifs with hc
    · cases hx : l[2 * (hole + 1)]? with
      | none => rfl
      | some x =>
        cases hy : l[2 * (hole + 1) - 1]? with
        | none => rfl
        | some y =>
          dsimp only
          apply ih
          split_ifs <;> omega
    · rfl

/-- The number of rounds `adjustHeap` allows for the way down is enough. -/
theorem adjustHeapDown_enough {α : Type} (lt : α → α → Bool) (l : List α)
    (hole len k : Nat) :
    libstdcxx.adjustHeapDown lt (len + k) l hole len
      = libstdcxx.adjustHeapDown lt len l hole len := by
  cases len with
  | zero =>
    cases k with
    | zero => rfl
    | succ k => simp [libstdcxx.adjustHeapDown]
  | succ n => exact adjustHeapDown_rounds lt n k l hole (n + 1) (by omega)

theorem pushHeap_rounds {α : Type} (lt : α → α → Bool) (fuel : Nat) :
    ∀ (k : Nat) (l : List α) (hole top : Nat), hole ≤ fuel + top →
      libstdcxx.pushHeap lt (fuel + 1 + k) l hole top
        = libstdcxx.pushHeap lt (fuel + 1) l hole top := by
  induction fuel with
  | zero =>
    intro k l hole top h
    rw [show 0 + 1 + k = k + 1 by omega]
    unfold libstdcxx.pushHeap
    have hn : ¬ hole > top := by omega
    rw [if_neg hn, if_neg hn]
  | succ fuel ih =>
    intro k l hole top h
    rw [show fuel + 1 + 1 + k = (fuel + 1 + k) + 1 by omega]
    conv_lhs => unfold libstdcxx.pushHeap
    conv_rhs => unfold libstdcxx.pushHeap
    split_ifs with hc
    · cases hx : l[(hole - 1) / 2]? with
      | none => rfl
      | some x =>
        cases hy : l[hole]? with
        | none => rfl
        | some y =>
          dsimp only
          split_ifs
          · apply ih
            omega
          · rfl
    · rfl

theorem adjustHeapDown_hole_lt {α : Type} (lt : α → α → Bool) (fuel : Nat) :
    ∀ (l : List α) (hole len : Nat), hole < len →
      (libstdcxx.adjustHeapDown lt fuel l hole len).1 < len := by
  induction fuel with
  | zero => intro l hole len h; exact h
  | succ fuel ih =>
    intro l hole len h
    unfold libstdcxx.adjustHeapDown
    split_ifs with hc
    · cases hx : l[2 * (hole + 1)]? with
      | none => exact h
      | some x =>
        cases hy : l[2 * (hole + 1) - 1]? with
        | none => exact h
        | some y =>
          dsimp only
          apply ih
          split_ifs <;> omega
    · exact h

/-- The number of rounds `adjustHeap` allows for the way up is enough, for a hole inside
the heap. -/
theorem pushHeap_enough {α : Type} (lt : α → α → Bool) (l : List α) (hole len k : Nat)
    (h : hole < len) :
    libstdcxx.pushHeap lt (len + k)
        (libstdcxx.adjustHeapLast len (libstdcxx.adjustHeapDown lt len l hole len)).2
        (libstdcxx.adjustHeapLast len (libstdcxx.adjustHeapDown lt len l hole len)).1 hole
      = libstdcxx.adjustHeap lt l hole len := by
  unfold libstdcxx.adjustHeap
  have hd := adjustHeapDown_hole_lt lt len l hole len h
  have hl : (libstdcxx.adjustHeapLast len (libstdcxx.adjustHeapDown lt len l hole len)).1
      < len := by
    unfold libstdcxx.adjustHeapLast
    split_ifs with hc
    · dsimp only
      omega
    · exact hd
  cases len with
  | zero => omega
  | succ n => exact pushHeap_rounds lt n k _ _ hole (by omega)

theorem lg_rounds (fuel : Nat) :
    ∀ n : Nat, n ≤ fuel + 1 → libstdcxx.lg (fuel + 1) n = Nat.log2 n := by
  induction fuel with
  | zero =>
    intro n h
    have hn : n < 2 := by omega
    have hge : ¬ n ≥ 2 := by omega
    rw [Nat.log2, if_neg hge]
    simp [libstdcxx.lg, hn]
  | succ fuel ih =>
    intro n h
    rw [Nat.log2]
    unfold libstdcxx.lg
    by_cases hn : n < 2
    · have hge : ¬ n ≥ 2 := by omega
      rw [if_pos hn, if_neg hge]
    · have hge : n ≥ 2 := by omega
      rw [if_neg hn, if_pos hge, ih (n / 2) (by omega)]

/-- `lg n n` is the floor of the binary logarithm of `n`, as `std::__lg(n)` is. -/
theorem lg_eq_log2 (n : Nat) : libstdcxx.lg n n = Nat.log2 n := by
  cases n with
  | zero =>
    rw [Nat.log2, if_neg (by omega)]
    rfl
  | succ n => exact lg_rounds n (n + 1) (Nat.le_refl _)

end SMS

/-! ## Lemmas on the repository -/

namespace SMS

theorem findByRollIn_eq_none_iff (r : Int) (l : List StudentObj) :
    StudentRepository.findByRollIn r l = none ↔ ∀ p ∈ l, p.roll ≠ r := by
  induction l with
  | nil => simp [StudentRepository.findByRollIn]
  | cons p ps ih =>
    by_cases h : p.roll = r
    · simp [StudentRepository.findByRollIn, h]
    · simp [StudentRepository.findByRollIn, h, ih]

theorem findByRollIn_ne_none_iff (r : Int) (l : List StudentObj) :
    StudentRepository.findByRollIn r l ≠ none ↔ ∃ p ∈ l, p.roll = r := by
  rw [Ne, findByRollIn_eq_none_iff]
  push_neg
  rfl

theorem add_of_absent (repo : StudentRepository) (s : StudentObj)
    (h : ∀ p ∈ repo.data_, p.roll ≠ s.roll) :
    repo.add s = (.ok (), { data_ := repo.data_ ++ [s] }) := by
  have hn : repo.findByRoll s.roll = none := (findByRollIn_eq_none_iff _ _).2 h
  simp [StudentRepository.add, hn]

theorem add_of_present (repo : StudentRepository) (s : StudentObj)
    (h : ∃ p ∈ repo.data_, p.roll = s.roll) :
    repo.add s = (.error (.runtime_error "Duplicate roll"), repo) := by
  have hn : repo.findByRoll s.roll ≠ none := (findByRollIn_ne_none_iff _ _).2 h
  unfold StudentRepository.add
  cases hf : repo.findByRoll s.roll with
  | none => exact absurd hf hn
  | some q => rfl

theorem add_preserves_nodup (repo : StudentRepository) (s : StudentObj)
    (h : repo.rolls.Nodup) : (repo.add s).2.rolls.Nodup := by
  by_cases hp : ∃ p ∈ repo.data_, p.roll = s.roll
  · rw [add_of_present repo s hp]; exact h
  · have ha : ∀ p ∈ repo.data_, p.roll ≠ s.roll := by
      intro p hpm heq; exact hp ⟨p, hpm, heq⟩
    rw [add_of_absent repo s ha]
    simp only [StudentRepository.rolls, List.map_append, List.map_cons, List.map_nil]
    rw [List.nodup_append]
    refine ⟨h, List.nodup_singleton _, ?_⟩
    intro x hx hx2
    rw [List.mem_singleton] at hx2
    rw [List.mem_map] at hx
    obtain ⟨p, hpm, hpr⟩ := hx
    exact ha p hpm (hpr.trans hx2)

theorem addAll_preserves_nodup (ss : List StudentObj) :
    ∀ repo : StudentRepository, repo.rolls.Nodup → (repo.addAll ss).rolls.Nodup := by
  induction ss with
  | nil => intro repo h; exact h
  | cons s ss ih =>
    intro repo h
    exact ih _ (add_preserves_nodup repo s h)

theorem remove_if_eq_filter {α : Type} (pred : α → Bool) (l : List α) :
    remove_if pred l = l.filter (fun x => !pred x) := by
  induction l with
  | nil => rfl
  | cons x xs ih =>
    by_cases h : pred x = true
    · simp [remove_if, h, ih]
    · simp [remove_if, h, ih]

theorem remove_if_sublist {α : Type} (pred : α → Bool) (l : List α) :
    (remove_if pred l).Sublist l := by
  rw [remove_if_eq_filter]
  exact List.filter_sublist l

theorem remove_if_of_none {α : Type} (pred : α → Bool) (l : List α)
    (h : ∀ x ∈ l, pred x = false) : remove_if pred l = l := by
  induction l with
  | nil => rfl
  | cons x xs ih =>
    have hx : pred x = false := h x (List.mem_cons_self x xs)
    have hxs : ∀ y ∈ xs, pred y = false := fun y hy => h y (List.mem_cons_of_mem x hy)
    simp [remove_if, hx, ih hxs]

theorem remove_if_roll_absent (r : Int) (l : List StudentObj) :
    ∀ p ∈ remove_if (fun p => decide (p.roll = r)) l, p.roll ≠ r := by
  intro p hp
  rw [remove_if_eq_filter, List.mem_filter] at hp
  simpa using hp.2

theorem remove_if_roll_length (r : Int) (l : List StudentObj)
    (hd : (l.map StudentObj.roll).Nodup) (hp : ∃ p ∈ l, p.roll = r) :
    (remove_if (fun p => decide (p.roll = r)) l).length + 1 = l.length := by
  induction l with
  | nil => obtain ⟨p, hpm, _⟩ := hp; cases hpm
  | cons q qs ih =>
    rw [List.map_cons, List.nodup_cons] at hd
    by_cases hq : q.roll = r
    · have hnone : ∀ x ∈ qs, decide (x.roll = r) = false := by
        intro x hx
        have hne : x.roll ≠ r := by
          intro hxr
          exact hd.1 (List.mem_map.2 ⟨x, hx, hxr.trans hq.symm⟩)
        simp [hne]
      simp [remove_if, hq, remove_if_of_none _ qs hnone]
    · have hp1 : ∃ p ∈ qs, p.roll = r := by
        obtain ⟨p, hpm, hpr⟩ := hp
        rcases List.mem_cons.1 hpm with h | h
        · exact absurd (h ▸ hpr) hq
        · exact ⟨p, h, hpr⟩
      simp [remove_if, hq, ih hd.2 hp1]

/-! ## Lemmas on the course list -/

theorem foundIf_iff {α : Type} (pred : α → Bool) (l : List α) :
    foundIf pred l = true ↔ ∃ x ∈ l, pred x = true := by
  induction l with
  | nil => simp [foundIf]
  | cons x xs ih =>
    by_cases h : pred x = true
    · simp [foundIf, h]
    · simp [foundIf, h, ih]

theorem remove_if_length_ne_iff {α : Type} (pred : α → Bool) (l : List α) :
    (remove_if pred l).length ≠ l.length ↔ ∃ x ∈ l, pred x = true := by
  constructor
  · intro h
    by_contra hn
    push_neg at hn
    apply h
    rw [remove_if_of_none pred l (fun x hx => by simpa using hn x hx)]
  · rintro ⟨x, hx, hp⟩ heq
    have hs := (remove_if_sublist pred l).eq_of_length heq
    have hx2 : x ∈ remove_if pred l := by rw [hs]; exact hx
    rw [remove_if_eq_filter, List.mem_filter] at hx2
    simp [hp] at hx2

theorem addCourse_courses (s : Student) (c : Course) :
    (s.addCourse c).courses_ =
      if ∃ x ∈ s.courses_, x.code = c.code then s.courses_ else s.courses_ ++ [c] := by
  unfold Student.addCourse
  by_cases h : ∃ x ∈ s.courses_, x.code = c.code
  · have hf : foundIf (fun x => decide (x.code = c.code)) s.courses_ = true :=
      (foundIf_iff _ _).2 (by simpa using h)
    rw [if_pos hf, if_pos h]
  · have hf : ¬ foundIf (fun x => decide (x.code = c.code)) s.courses_ = true := by
      rw [foundIf_iff]; simpa using h
    rw [if_neg hf, if_neg h]

theorem removeCourse_courses (s : Student) (k : String) :
    (s.removeCourseByCode k).2.courses_ = s.courses_.filter (fun c => decide (c.code ≠ k)) := by
  have hf : remove_if (fun c : Course => decide (c.code = k)) s.courses_
      = s.courses_.filter (fun c => decide (c.code ≠ k)) := by
    rw [remove_if_eq_filter]
    congr 1
    funext c
    by_cases h : c.code = k <;> simp [h]
  unfold Student.removeCourseByCode
  by_cases h : (remove_if (fun c : Course => decide (c.code = k)) s.courses_).length
      ≠ s.courses_.length
  · rw [if_pos h]
    exact hf
  · rw [if_neg h, ← hf]
    exact ((remove_if_sublist _ _).eq_of_length (not_not.1 h)).symm

theorem apply_courses (s : Student) (op : StudentOp) :
    (s.apply op).courses_ =
      match op with
      | .addCourse c =>
        if ∃ x ∈ s.courses_, x.code = c.code then s.courses_ else s.courses_ ++ [c]
      | .removeCourseByCode k => s.courses_.filter (fun c => decide (c.code ≠ k))
      | _ => s.courses_ := by
  cases op with
  | setName n =>
    by_cases h : n = "" <;> simp [Student.apply, Student.setName, Person.setName, h]
  | setAge a =>
    by_cases h : a < 0 ∨ a > 130 <;>
      simp [Student.apply, Student.setAge, Person.setAge, Person.ensureValidAge, h]
  | setRoll r =>
    by_cases h : r ≤ 0 <;> simp [Student.apply, Student.setRoll, h]
  | setAddress a => rfl
  | addCourse c => exact addCourse_courses s c
  | removeCourseByCode k => exact removeCourse_courses s k

theorem apply_courses_nodup (s : Student) (op : StudentOp)
    (hd : (s.courses_.map Course.code).Nodup) :
    ((s.apply op).courses_.map Course.code).Nodup := by
  rw [apply_courses]
  cases op with
  | addCourse c =>
    dsimp only
    by_cases h : ∃ x ∈ s.courses_, x.code = c.code
    · rw [if_pos h]; exact hd
    · rw [if_neg h, List.map_append, List.nodup_append]
      refine ⟨hd, List.nodup_singleton _, ?_⟩
      intro k hk hk2
      simp only [List.map_cons, List.map_nil, List.mem_singleton] at hk2
      obtain ⟨x, hx, hxk⟩ := List.mem_map.1 hk
      exact h ⟨x, hx, hxk.trans hk2⟩
  | removeCourseByCode k =>
    dsimp only
    exact hd.sublist ((List.filter_sublist _).map _)
  | setName n => exact hd
  | setAge a => exact hd
  | setRoll r => exact hd
  | setAddress a => exact hd

theorem applyAll_courses_nodup (ops : List StudentOp) :
    ∀ s : Student, (s.courses_.map Course.code).Nodup →
      ((s.applyAll ops).courses_.map Course.code).Nodup := by
  induction ops with
  | nil => intro s hd; exact hd
  | cons op ops ih => intro s hd; exact ih _ (apply_courses_nodup s op hd)

theorem keepFirstByCode_of_nodup (l : List Course) (hd : (l.map Course.code).Nodup) :
    keepFirstByCode l = l := by
  induction l with
  | nil => rfl
  | cons c cs ih =>
    rw [List.map_cons, List.nodup_cons] at hd
    rw [keepFirstByCode, ih hd.2]
    congr 1
    rw [List.filter_eq_self]
    intro x hx
    have hne : x.code ≠ c.code := by
      intro heq
      exact hd.1 (List.mem_map.2 ⟨x, hx, heq⟩)
    simpa using hne

theorem filter_code_comm (k1 k2 : String) (l : List Course) :
    (l.filter (fun x => decide (x.code ≠ k1))).filter (fun x => decide (x.code ≠ k2))
      = (l.filter (fun x => decide (x.code ≠ k2))).filter (fun x => decide (x.code ≠ k1)) := by
  rw [List.filter_filter, List.filter_filter]
  congr 1
  funext x
  exact Bool.and_comm _ _

theorem keepFirstByCode_filter_drop (k : String) (x : Course) (hx : x.code = k)
    (X Y : List Course) :
    (keepFirstByCode (X ++ x :: Y)).filter (fun c => decide (c.code ≠ k))
      = (keepFirstByCode (X ++ Y)).filter (fun c => decide (c.code ≠ k)) := by
  induction X with
  | nil =>
    simp only [List.nil_append, keepFirstByCode, List.filter_cons, hx]
    simp [List.filter_filter]
  | cons a X ih =>
    rw [List.cons_append, List.cons_append, keepFirstByCode, keepFirstByCode,
      List.filter_cons, List.filter_cons, filter_code_comm a.code k, ih,
      filter_code_comm k a.code]

theorem keepFirstByCode_drop (x : Course) (A B : List Course)
    (hx : x.code ∈ A.map Course.code) :
    keepFirstByCode (A ++ x :: B) = keepFirstByCode (A ++ B) := by
  induction A with
  | nil => simp at hx
  | cons a A ih =>
    rw [List.cons_append, List.cons_append, keepFirstByCode, keepFirstByCode]
    congr 1
    by_cases hxa : x.code = a.code
    · exact keepFirstByCode_filter_drop a.code x hxa A B
    · have hx2 : x.code ∈ A.map Course.code := by
        rw [List.map_cons, List.mem_cons] at hx
        rcases hx with h | h
        · exact absurd h hxa
        · exact h
      rw [ih hx2]

/-- The course list after a sequence of mutator calls, from any course list with
pairwise distinct codes: the first course per code among the former courses that are not
removed by the calls followed by the courses added and not removed later. -/
theorem applyAll_courses (ops : List StudentOp) :
    ∀ s : Student, (s.courses_.map Course.code).Nodup →
      (s.applyAll ops).courses_ =
        keepFirstByCode (s.courses_.filter (fun c => !removedLater c.code ops)
          ++ survivingAdds ops) := by
  induction ops with
  | nil =>
    intro s hd
    simp [Student.applyAll, removedLater, survivingAdds, keepFirstByCode_of_nodup _ hd]
  | cons op ops ih =>
    intro s hd
    rw [Student.applyAll, ih _ (apply_courses_nodup s op hd), apply_courses]
    cases op with
    | setName n => rfl
    | setAge a => rfl
    | setRoll r => rfl
    | setAddress a => rfl
    | addCourse c =>
      simp only [removedLater, survivingAdds]
      by_cases hx : ∃ x ∈ s.courses_, x.code = c.code
      · rw [if_pos hx]
        by_cases hr : removedLater c.code ops = true
        · rw [if_pos hr]
        · rw [if_neg hr]
          symm
          apply keepFirstByCode_drop
          obtain ⟨x, hxm, hxc⟩ := hx
          refine List.mem_map.2 ⟨x, List.mem_filter.2 ⟨hxm, ?_⟩, hxc⟩
          simpa [hxc] using hr
      · rw [if_neg hx]
        by_cases hr : removedLater c.code ops = true
        · simp [List.filter_append, hr]
        · simp [List.filter_append, hr]
    | removeCourseByCode k =>
      simp only [removedLater, survivingAdds, List.filter_filter]
      congr 2
      apply List.filter_congr
      intro x _
      by_cases hxk : x.code = k
      · simp [hxk]
      · have hkx : ¬ k = x.code := fun h => hxk h.symm
        simp [hxk, hkx]

theorem ctor_courses_nil {seed : Int} {k : CtorCall} {s0 : Student}
    (hk : (k.run seed).1 = .ok s0) : s0.courses_ = [] := by
  cases k with
  | explicit n a r =>
    simp only [CtorCall.run, Student.ctor] at hk
    cases hp : Person.ctor n a with
    | error e => simp [hp] at hk
    | ok p =>
      by_cases hr : r ≤ 0
      · simp [hp, hr] at hk
      · simp only [hp, hr, if_false, Except.ok.injEq] at hk
        rw [← hk]
  | auto n a =>
    cases hp : Person.ctor n a with
    | error e => simp [CtorCall.run, ctorAuto_error hp] at hk
    | ok p =>
      simp only [CtorCall.run, ctorAuto_ok hp, Except.ok.injEq] at hk
      rw [← hk]

theorem addCourse_has_code (s : Student) (c : Course) :
    ∃ x ∈ (s.addCourse c).courses_, x.code = c.code := by
  rw [addCourse_courses]
  by_cases h : ∃ x ∈ s.courses_, x.code = c.code
  · rw [if_pos h]; exact h
  · rw [if_neg h]; exact ⟨c, by simp, rfl⟩

theorem addCourse_of_found (s : Student) (c : Course)
    (hf : foundIf (fun x => decide (x.code = c.code)) s.courses_ = true) :
    s.addCourse c = s := by
  unfold Student.addCourse
  rw [if_pos hf]

theorem addCourse_same_code (s : Student) (c c1 : Course) (hcode : c1.code = c.code) :
    (s.addCourse c).addCourse c1 = s.addCourse c := by
  apply addCourse_of_found
  rw [foundIf_iff]
  obtain ⟨x, hx, hxc⟩ := addCourse_has_code s c
  exact ⟨x, hx, by simp [hxc, hcode]⟩

/-! ## Lemmas on lookup -/

theorem findByRollIn_eq_find (r : Int) (l : List StudentObj) :
    StudentRepository.findByRollIn r l = l.find? (fun p => decide (p.roll = r)) := by
  induction l with
  | nil => rfl
  | cons p ps ih =>
    by_cases h : p.roll = r
    · simp [StudentRepository.findByRollIn, h]
    · simp [StudentRepository.findByRollIn, h, ih]

theorem findByNameIn_eq (n : String) (l : List StudentObj) :
    ∀ res : List StudentObj,
      StudentRepository.findByNameIn n res l
        = res ++ l.filter (fun p => decide (p.name = n)) := by
  induction l with
  | nil => intro res; simp [StudentRepository.findByNameIn]
  | cons p ps ih =>
    intro res
    by_cases h : p.name = n
    · simp [StudentRepository.findByNameIn, h, ih]
    · simp [StudentRepository.findByNameIn, h, ih]

/-! ## Lemmas on construction -/

theorem Student.ctor_error_invalid {n : String} {a r : Int} {e : Error}
    (h : Student.ctor n a r = .error e) : ∃ msg, e = .invalid_argument msg := by
  unfold Student.ctor Person.ctor Person.ensureValidAge at h
  by_cases hn : n = ""
  · simp only [hn, if_true, Except.error.injEq] at h
    exact ⟨_, h.symm⟩
  · by_cases ha : a < 0 ∨ a > 130
    · simp only [hn, ha, if_true, if_false, Except.error.injEq] at h
      exact ⟨_, h.symm⟩
    · by_cases hr : r ≤ 0
      · simp only [hn, ha, hr, if_true, if_false, Except.error.injEq] at h
        exact ⟨_, h.symm⟩
      · simp [hn, ha, hr] at h

theorem Double.ltZero_false_iff (d : Double) :
    d.ltZero = false ↔ (d.geZero = true ∨ ∃ b, d = .nan b) := by
  cases d with
  | finite neg mant exp =>
    cases neg <;> by_cases hm : mant = 0 <;> simp [Double.ltZero, Double.geZero, hm]
  | inf neg => cases neg <;> simp [Double.ltZero, Double.geZero]
  | nan neg => simp [Double.ltZero, Double.geZero]

/-- The constructor of `HonorsStudent` succeeds exactly when the `Student` constructor
succeeds and `s < 0` is false, that is, when `s >= 0` or `s` is a NaN; a failure is an
`invalid_argument`. -/
theorem HonorsStudent.ctor_spec (n : String) (a r : Int) (s : Double) :
    match HonorsStudent.ctor n a r s with
    | .ok h => Student.ctor n a r = .ok h.toStudent ∧ h.scholarship_ = s ∧
        (s.geZero = true ∨ ∃ b, s = .nan b)
    | .error e => (threw (Student.ctor n a r) = true ∨ s.ltZero = true) ∧
        ∃ msg, e = .invalid_argument msg := by
  cases hs : Student.ctor n a r with
  | error e =>
    have hc : HonorsStudent.ctor n a r s = .error e := by
      simp [HonorsStudent.ctor, hs]
    rw [hc]
    exact ⟨Or.inl rfl, Student.ctor_error_invalid hs⟩
  | ok st =>
    by_cases hl : s.ltZero = true
    · have hc : HonorsStudent.ctor n a r s
          = .error (.invalid_argument "Invalid scholarship") := by
        simp [HonorsStudent.ctor, hs, hl]
      rw [hc]
      exact ⟨Or.inr hl, _, rfl⟩
    · have hc : HonorsStudent.ctor n a r s = .ok ⟨st, s⟩ := by
        simp [HonorsStudent.ctor, hs, hl]
      rw [hc]
      exact ⟨rfl, rfl, (Double.ltZero_false_iff s).1 (by simpa using hl)⟩

/-! ## The claims -/

/-- C1: for every sequence of `StudentRepository::add` calls starting from the empty
repository, each call succeeding or throwing, the rolls of the entities held after every
call (that is, after every prefix of the sequence) are pairwise distinct. -/
theorem C1_add_sequence_rolls_distinct (ss : List StudentObj) (k : Nat) :
    (StudentRepository.empty.addAll (ss.take k)).rolls.Nodup :=
  addAll_preserves_nodup (ss.take k) StudentRepository.empty List.nodup_nil

/-- C2: `add(s)` throws the duplicate-key error (`runtime_error`) if and only if some
held entity already has roll `s.roll()`, and it throws nothing else; when it throws the
repository is unchanged, and when it returns the new vector is the old one with `s`
appended at the end.  Scenario: `Student("Cy",20,7)` is constructed and added,
`Student("Dee",21,7)` is constructed and its `add` throws, and the repository still holds
only "Cy". -/
theorem C2_add_duplicate_iff_and_effect :
    (∀ (repo : StudentRepository) (s : StudentObj),
      (threwRuntimeError (repo.add s).1 = true ↔ ∃ p ∈ repo.data_, p.roll = s.roll) ∧
      (threw (repo.add s).1 = true ↔ ∃ p ∈ repo.data_, p.roll = s.roll) ∧
      (repo.add s).2 =
        (if threw (repo.add s).1 = true then repo else { data_ := repo.data_ ++ [s] })) ∧
    Student.ctor "Cy" 20 7 = .ok ⟨⟨"Cy", 20⟩, 7, Address.empty, []⟩ ∧
    Student.ctor "Dee" 21 7 = .ok ⟨⟨"Dee", 21⟩, 7, Address.empty, []⟩ ∧
    StudentRepository.empty.add (.student ⟨⟨"Cy", 20⟩, 7, Address.empty, []⟩) =
      (.ok (), ⟨[.student ⟨⟨"Cy", 20⟩, 7, Address.empty, []⟩]⟩) ∧
    StudentRepository.add ⟨[.student ⟨⟨"Cy", 20⟩, 7, Address.empty, []⟩]⟩
        (.student ⟨⟨"Dee", 21⟩, 7, Address.empty, []⟩) =
      (.error (.runtime_error "Duplicate roll"),
        ⟨[.student ⟨⟨"Cy", 20⟩, 7, Address.empty, []⟩]⟩) := by
  refine ⟨?_, rfl, rfl, rfl, rfl⟩
  intro repo s
  by_cases hp : ∃ p ∈ repo.data_, p.roll = s.roll
  · rw [add_of_present repo s hp]
    simp [threwRuntimeError, threw, hp]
  · have ha : ∀ p ∈ repo.data_, p.roll ≠ s.roll := by
      intro p hpm heq; exact hp ⟨p, hpm, heq⟩
    rw [add_of_absent repo s ha]
    simp [threwRuntimeError, threw, hp]

/-- C3 (defect in `App::update`): the roll update writes the new roll through
`Student::setRoll` without the duplicate check `StudentRepository::add` performs.  After
adding students with rolls 1 and 2 and updating the roll of student 1 to 2, the
repository holds two entities with roll 2, so the rolls are not pairwise distinct. -/
theorem C3_update_roll_duplicates :
    (App.update
      (App.addStudent
        (App.addStudent App.init rollSeedInit false
          ⟨"A", 20, true, 1, 0, .finite false 0 0, false, Address.empty⟩).1
        rollSeedInit false ⟨"B", 21, true, 2, 0, .finite false 0 0, false, Address.empty⟩).1
      ⟨1, 3, "", 0, 2, Address.empty⟩).repo_.rolls = [2, 2] ∧
    ¬ (App.update
      (App.addStudent
        (App.addStudent App.init rollSeedInit false
          ⟨"A", 20, true, 1, 0, .finite false 0 0, false, Address.empty⟩).1
        rollSeedInit false ⟨"B", 21, true, 2, 0, .finite false 0 0, false, Address.empty⟩).1
      ⟨1, 3, "", 0, 2, Address.empty⟩).repo_.rolls.Nodup := by
  have h : (App.update
      (App.addStudent
        (App.addStudent App.init rollSeedInit false
          ⟨"A", 20, true, 1, 0, .finite false 0 0, false, Address.empty⟩).1
        rollSeedInit false ⟨"B", 21, true, 2, 0, .finite false 0 0, false, Address.empty⟩).1
      ⟨1, 3, "", 0, 2, Address.empty⟩).repo_.rolls = [2, 2] := rfl
  refine ⟨h, ?_⟩
  rw [h]
  decide

/-- C4: `Student(n, a, r)` succeeds if and only if `n` is non-empty, `0 <= a <= 130`
and `r > 0`; when it succeeds `name()`, `age()` and `roll()` return `n`, `a` and `r`;
otherwise it throws `invalid_argument` and there is no object. -/
theorem C4_student_ctor_iff_valid (n : String) (a r : Int) :
    match Student.ctor n a r with
    | .ok s => (n ≠ "" ∧ 0 ≤ a ∧ a ≤ 130 ∧ 0 < r) ∧ s.name = n ∧ s.age = a ∧ s.roll = r
    | .error e => ¬ (n ≠ "" ∧ 0 ≤ a ∧ a ≤ 130 ∧ 0 < r) ∧ ∃ msg, e = .invalid_argument msg := by
  unfold Student.ctor Person.ctor Person.ensureValidAge
  by_cases hn : n = ""
  · simp [hn]
  · by_cases ha : a < 0 ∨ a > 130
    · simp only [hn, ha, if_true, if_false]
      refine ⟨?_, _, rfl⟩
      rintro ⟨-, h0, h1, -⟩
      omega
    · by_cases hr : r ≤ 0
      · simp only [hn, ha, hr, if_true, if_false]
        refine ⟨?_, _, rfl⟩
        rintro ⟨-, -, -, h2⟩
        omega
      · simp only [hn, ha, hr, if_false]
        refine ⟨⟨hn, ?_, ?_, ?_⟩, rfl, rfl, rfl⟩ <;> omega

/-- C5: a `Student` obtained from a successful constructor call, `Student(n, a, r)` or
the auto-roll `Student(n, a)` run at a counter value the counter takes without signed
overflow (`1000 <= seed < INT_MAX`), followed by any sequence of `setName`, `setAge`,
`setRoll`, `setAddress`, `addCourse` and `removeCourseByCode` calls, each returning or
throwing, has a non-empty name, an age in `[0,130]` and a roll `> 0`. -/
theorem C5_student_invariant (seed : Int) (c : CtorCall) (s : Student) (ops : List StudentOp)
    (hseed : rollSeedInit ≤ seed ∧ seed < INT_MAX) (hc : (c.run seed).1 = .ok s) :
    (s.applyAll ops).name ≠ "" ∧ 0 ≤ (s.applyAll ops).age ∧ (s.applyAll ops).age ≤ 130 ∧
      0 < (s.applyAll ops).roll := by
  have hv : s.Valid := by
    cases c with
    | explicit n a r => exact Student.ctor_valid hc
    | auto n a => exact Student.ctorAuto_valid hseed.1 hseed.2 hc
  exact Student.applyAll_valid ops s hv

/-- Witness of C5: the first auto-roll student of a process, after a rejected `setAge`,
a rejected `setRoll`, an accepted `setName` and an `addCourse`. -/
theorem C5_student_invariant_witness :
    (rollSeedInit ≤ 1000 ∧ (1000 : Int) < INT_MAX) ∧
    ((CtorCall.auto "Ann" 20).run 1000).1 = .ok ⟨⟨"Ann", 20⟩, 1001, Address.empty, []⟩ ∧
    (Student.applyAll ⟨⟨"Ann", 20⟩, 1001, Address.empty, []⟩
      [.setAge 131, .setRoll 0, .setName "Anna", .addCourse ⟨"CS1", "Intro"⟩]).name ≠ "" ∧
    0 ≤ (Student.applyAll ⟨⟨"Ann", 20⟩, 1001, Address.empty, []⟩
      [.setAge 131, .setRoll 0, .setName "Anna", .addCourse ⟨"CS1", "Intro"⟩]).age ∧
    (Student.applyAll ⟨⟨"Ann", 20⟩, 1001, Address.empty, []⟩
      [.setAge 131, .setRoll 0, .setName "Anna", .addCourse ⟨"CS1", "Intro"⟩]).age ≤ 130 ∧
    0 < (Student.applyAll ⟨⟨"Ann", 20⟩, 1001, Address.empty, []⟩
      [.setAge 131, .setRoll 0, .setName "Anna", .addCourse ⟨"CS1", "Intro"⟩]).roll :=
  ⟨by decide, rfl,
    C5_student_invariant 1000 (.auto "Ann" 20) ⟨⟨"Ann", 20⟩, 1001, Address.empty, []⟩
      [.setAge 131, .setRoll 0, .setName "Anna", .addCourse ⟨"CS1", "Intro"⟩]
      (by decide) rfl⟩

/-- C6: `setName(n)` throws iff `n` is empty, `setAge(a)` throws iff `a < 0` or
`a > 130`, `setRoll(r)` throws iff `r <= 0`, each time `invalid_argument`; a setter that
throws leaves the object as it was, and a setter that returns has changed exactly the
targeted field to the supplied value, all other fields (name, age, roll, address,
courses) keeping their values. -/
theorem C6_setters_validate_and_frame (s : Student) (n : String) (a r : Int) :
    ((threw (s.setName n).1 = true ↔ n = "") ∧
      threwInvalidArgument (s.setName n).1 = threw (s.setName n).1 ∧
      (s.setName n).2 =
        (if threw (s.setName n).1 = true then s
         else ⟨⟨n, s.age_⟩, s.roll_, s.address_, s.courses_⟩)) ∧
    ((threw (s.setAge a).1 = true ↔ (a < 0 ∨ a > 130)) ∧
      threwInvalidArgument (s.setAge a).1 = threw (s.setAge a).1 ∧
      (s.setAge a).2 =
        (if threw (s.setAge a).1 = true then s
         else ⟨⟨s.name_, a⟩, s.roll_, s.address_, s.courses_⟩)) ∧
    ((threw (s.setRoll r).1 = true ↔ r ≤ 0) ∧
      threwInvalidArgument (s.setRoll r).1 = threw (s.setRoll r).1 ∧
      (s.setRoll r).2 =
        (if threw (s.setRoll r).1 = true then s
         else ⟨⟨s.name_, s.age_⟩, r, s.address_, s.courses_⟩)) := by
  refine ⟨?_, ?_, ?_⟩
  · by_cases hn : n = ""
    · simp [Student.setName, Person.setName, hn, threw, threwInvalidArgument]
    · simp [Student.setName, Person.setName, hn, threw, threwInvalidArgument]
  · by_cases ha : a < 0 ∨ a > 130
    · simp [Student.setAge, Person.setAge, Person.ensureValidAge, ha, threw,
        threwInvalidArgument]
    · simp [Student.setAge, Person.setAge, Person.ensureValidAge, ha, threw,
        threwInvalidArgument]
  · by_cases hr : r ≤ 0
    · simp [Student.setRoll, hr, threw, threwInvalidArgument]
    · simp [Student.setRoll, hr, threw, threwInvalidArgument]

/-- C7, the claim as stated fails: `HonorsStudent("Bo",22,5,1500.5)` is constructed
(`1500.5 = 3001 * 2^-1`), and its `serialize()` is neither `"Student|5|Bo|22|SCH:1500.50"`
nor the prefix followed by the two-decimal text of the amount. -/
theorem C7_serialize_two_decimals_fails :
    HonorsStudent.ctor "Bo" 22 5 (.finite false 3001 (-1)) =
      .ok ⟨⟨⟨"Bo", 22⟩, 5, Address.empty, []⟩, .finite false 3001 (-1)⟩ ∧
    HonorsStudent.serialize ⟨⟨⟨"Bo", 22⟩, 5, Address.empty, []⟩, .finite false 3001 (-1)⟩
      ≠ "Student|5|Bo|22|SCH:1500.50" ∧
    HonorsStudent.serialize ⟨⟨⟨"Bo", 22⟩, 5, Address.empty, []⟩, .finite false 3001 (-1)⟩
      ≠ "Student|5|Bo|22|SCH:" ++ Double.fixed 2 (.finite false 3001 (-1)) :=
  ⟨rfl, by decide, by decide⟩

/-- C7 as amended: for every `HonorsStudent` with a finite scholarship, `serialize()`
equals `"Student|<roll>|<name>|<age>|SCH:"` followed by the text of
`to_string(scholarship)`: an optional `-`, the integer part, a point and exactly six
decimal digits (the amount rounded to six decimals); in particular
`HonorsStudent("Bo",22,5,1500.5).serialize() == "Student|5|Bo|22|SCH:1500.500000"`. -/
theorem C7_serialize_six_decimals :
    (∀ (st : Student) (neg : Bool) (mant : Nat) (exp : Int),
      ∃ frac : List Char, frac.length = 6 ∧ (∀ c ∈ frac, c.isDigit = true) ∧
        HonorsStudent.serialize ⟨st, .finite neg mant exp⟩ =
          "Student|" ++ to_string_int st.roll ++ "|" ++ st.name ++ "|" ++ to_string_int st.age
            ++ "|SCH:"
            ++ ((if neg then "-" else "") ++ toString (scaledRound 6 mant exp / 10 ^ 6)
                ++ ("." ++ String.mk frac))) ∧
    HonorsStudent.serialize ⟨⟨⟨"Bo", 22⟩, 5, Address.empty, []⟩, .finite false 3001 (-1)⟩
      = "Student|5|Bo|22|SCH:1500.500000" := by
  refine ⟨?_, rfl⟩
  intro st neg mant exp
  refine ⟨decimalDigits 6 (scaledRound 6 mant exp % 10 ^ 6), decimalDigits_length 6 _,
    decimalDigits_isDigit 6 _, ?_⟩
  simp [HonorsStudent.serialize, Student.serialize, to_string_double, Double.fixed,
    Student.roll, Student.name, Student.age]

/-- C8: for every plain `Student`, `serialize()` is
`"Student|" ++ decimal(roll) ++ "|" ++ name ++ "|" ++ decimal(age)`; for every
`HonorsStudent`, `serialize()` is the serialization of a plain `Student` with the same
roll, name and age followed by a suffix that starts with `"|SCH:"`.  Example:
`Student("Cy",20,7)` serializes to `"Student|7|Cy|20"`. -/
theorem C8_serialize_shape :
    (∀ s : Student, (StudentObj.student s).serialize =
      "Student|" ++ to_string_int s.roll ++ "|" ++ s.name ++ "|" ++ to_string_int s.age) ∧
    (∀ (h : HonorsStudent) (adr : Address) (cs : List Course), ∃ rest : String,
      (StudentObj.honors h).serialize =
        (StudentObj.student ⟨⟨h.name_, h.age_⟩, h.roll_, adr, cs⟩).serialize
          ++ ("|SCH:" ++ rest)) ∧
    (StudentObj.student ⟨⟨"Cy", 20⟩, 7, Address.empty, []⟩).serialize = "Student|7|Cy|20" := by
  refine ⟨fun s => rfl, ?_, rfl⟩
  intro h adr cs
  refine ⟨to_string_double h.scholarship_, ?_⟩
  simp only [StudentObj.serialize, HonorsStudent.serialize, Student.serialize]
  rw [String.append_assoc]

/-- C9: with the auto-roll counter threaded as explicit state seeded at 1000, in every
sequence of constructor calls whose successful auto-roll constructions do not overflow
the `int` counter, the `k`-th successful auto-roll construction (`k` counted from 1)
receives roll `1000 + k`, whatever explicit-roll constructions and failing auto-roll
constructions are interleaved, and the counter ends at 1000 plus the number of successful
auto-roll constructions; an auto-roll construction that throws leaves the counter
unchanged, one that succeeds advances it by one step. -/
theorem C9_auto_roll_sequence (cs : List CtorCall) (k : Nat)
    (hno : rollSeedInit + (autoRolls rollSeedInit cs).length ≤ INT_MAX) :
    (autoRolls rollSeedInit cs)[k]? =
      (if k < (autoRolls rollSeedInit cs).length then some (1000 + ((k : Int) + 1)) else none) ∧
    seedAfter rollSeedInit cs = 1000 + (autoRolls rollSeedInit cs).length ∧
    (∀ (seed : Int) (n : String) (a : Int), (Student.ctorAuto seed n a).2 =
      (if threw (Student.ctorAuto seed n a).1 = true then seed else wrapInt (seed + 1))) := by
  obtain ⟨h1, h2⟩ := autoRolls_get cs rollSeedInit (by decide) hno
  refine ⟨?_, h2, ?_⟩
  · by_cases hk : k < (autoRolls rollSeedInit cs).length
    · rw [if_pos hk, h1 k hk]; rfl
    · rw [if_neg hk]
      exact List.getElem?_eq_none (by omega)
  · intro seed n a
    cases hp : Person.ctor n a with
    | error e => rw [ctorAuto_error hp]; rfl
    | ok p => rw [ctorAuto_ok hp]; rfl

/-- Witness of C9: `Student("Ann",20)`, an explicit-roll `Student("Cy",20,7)`, a failing
`Student("",20)`, a failing `Student("Old",131)` and `Student("Ben",21)`: the counter does
not overflow, the two successful auto-roll constructions receive 1001 and 1002 and the
counter ends at 1002. -/
theorem C9_auto_roll_sequence_witness :
    rollSeedInit + (autoRolls rollSeedInit
        [.auto "Ann" 20, .explicit "Cy" 20 7, .auto "" 20, .auto "Old" 131,
          .auto "Ben" 21]).length ≤ INT_MAX ∧
    autoRolls rollSeedInit
        [.auto "Ann" 20, .explicit "Cy" 20 7, .auto "" 20, .auto "Old" 131, .auto "Ben" 21]
      = [1001, 1002] ∧
    (autoRolls rollSeedInit
        [.auto "Ann" 20, .explicit "Cy" 20 7, .auto "" 20, .auto "Old" 131, .auto "Ben" 21])[1]?
      = (if 1 < (autoRolls rollSeedInit
          [.auto "Ann" 20, .explicit "Cy" 20 7, .auto "" 20, .auto "Old" 131,
            .auto "Ben" 21]).length
         then some (1000 + (((1 : Nat) : Int) + 1)) else none) ∧
    seedAfter rollSeedInit
        [.auto "Ann" 20, .explicit "Cy" 20 7, .auto "" 20, .auto "Old" 131, .auto "Ben" 21]
      = 1000 + (autoRolls rollSeedInit
          [.auto "Ann" 20, .explicit "Cy" 20 7, .auto "" 20, .auto "Old" 131,
            .auto "Ben" 21]).length :=
  ⟨by decide, rfl,
    (C9_auto_roll_sequence
      [.auto "Ann" 20, .explicit "Cy" 20 7, .auto "" 20, .auto "Old" 131, .auto "Ben" 21] 1
      (by decide)).1,
    (C9_auto_roll_sequence
      [.auto "Ann" 20, .explicit "Cy" 20 7, .auto "" 20, .auto "Old" 131, .auto "Ben" 21] 1
      (by decide)).2.1⟩

/-- C10: if no held entity has roll `r`, `removeByRoll(r)` returns false and leaves the
collection unchanged; if the rolls are pairwise distinct and some entity has roll `r`,
`removeByRoll(r)` returns true, the collection shrinks by exactly one entity, the
remaining entities are the entities with another roll in their former relative order, and
a following `findByRoll(r)` returns not-found. -/
theorem C10_removeByRoll (repo : StudentRepository) (r : Int) :
    ((∀ p ∈ repo.data_, p.roll ≠ r) → repo.removeByRoll r = (false, repo)) ∧
    (repo.rolls.Nodup → (∃ p ∈ repo.data_, p.roll = r) →
      (repo.removeByRoll r).1 = true ∧
      (repo.removeByRoll r).2.data_.length + 1 = repo.data_.length ∧
      (repo.removeByRoll r).2.data_.Sublist repo.data_ ∧
      (repo.removeByRoll r).2.data_ = repo.data_.filter (fun p => decide (p.roll ≠ r)) ∧
      (repo.removeByRoll r).2.findByRoll r = none) := by
  constructor
  · intro h
    have hk : remove_if (fun p => decide (p.roll = r)) repo.data_ = repo.data_ :=
      remove_if_of_none _ _ (fun x hx => by simpa using h x hx)
    simp [StudentRepository.removeByRoll, hk]
  · intro hd hp
    have hl := remove_if_roll_length r repo.data_ hd hp
    have hne : (remove_if (fun p => decide (p.roll = r)) repo.data_).length
        ≠ repo.data_.length := by omega
    have hrem : repo.removeByRoll r =
        (true, { data_ := remove_if (fun p => decide (p.roll = r)) repo.data_ }) := by
      simp [StudentRepository.removeByRoll, hne]
    rw [hrem]
    refine ⟨rfl, hl, remove_if_sublist _ _, ?_, ?_⟩
    · show remove_if (fun p => decide (p.roll = r)) repo.data_ = _
      rw [remove_if_eq_filter]
      congr 1
      funext p
      by_cases h : p.roll = r <;> simp [h]
    · exact (findByRollIn_eq_none_iff r _).2 (remove_if_roll_absent r repo.data_)

/-- Witness of C10: a repository holding rolls 7 and 5 holds no roll 9, and removing
roll 9 changes nothing; its rolls are pairwise distinct and it holds roll 7, and removing
roll 7 returns true, leaves one entity, the one with roll 5, and roll 7 is no longer
found. -/
theorem C10_removeByRoll_witness :
    (∀ p ∈ [StudentObj.student ⟨⟨"Cy", 20⟩, 7, Address.empty, []⟩,
        StudentObj.student ⟨⟨"Bo", 22⟩, 5, Address.empty, []⟩], p.roll ≠ 9) ∧
    StudentRepository.removeByRoll
        ⟨[.student ⟨⟨"Cy", 20⟩, 7, Address.empty, []⟩,
          .student ⟨⟨"Bo", 22⟩, 5, Address.empty, []⟩]⟩ 9
      = (false, ⟨[.student ⟨⟨"Cy", 20⟩, 7, Address.empty, []⟩,
          .student ⟨⟨"Bo", 22⟩, 5, Address.empty, []⟩]⟩) ∧
    (StudentRepository.rolls
        ⟨[.student ⟨⟨"Cy", 20⟩, 7, Address.empty, []⟩,
          .student ⟨⟨"Bo", 22⟩, 5, Address.empty, []⟩]⟩).Nodup ∧
    (∃ p ∈ [StudentObj.student ⟨⟨"Cy", 20⟩, 7, Address.empty, []⟩,
        StudentObj.student ⟨⟨"Bo", 22⟩, 5, Address.empty, []⟩], p.roll = 7) ∧
    StudentRepository.removeByRoll
        ⟨[.student ⟨⟨"Cy", 20⟩, 7, Address.empty, []⟩,
          .student ⟨⟨"Bo", 22⟩, 5, Address.empty, []⟩]⟩ 7
      = (true, ⟨[.student ⟨⟨"Bo", 22⟩, 5, Address.empty, []⟩]⟩) ∧
    (StudentRepository.removeByRoll
        ⟨[.student ⟨⟨"Cy", 20⟩, 7, Address.empty, []⟩,
          .student ⟨⟨"Bo", 22⟩, 5, Address.empty, []⟩]⟩ 7).2.findByRoll 7 = none :=
  ⟨by decide,
   (C10_removeByRoll
      ⟨[.student ⟨⟨"Cy", 20⟩, 7, Address.empty, []⟩,
        .student ⟨⟨"Bo", 22⟩, 5, Address.empty, []⟩]⟩ 9).1 (by decide),
   by decide, by decide, rfl,
   ((C10_removeByRoll
      ⟨[.student ⟨⟨"Cy", 20⟩, 7, Address.empty, []⟩,
        .student ⟨⟨"Bo", 22⟩, 5, Address.empty, []⟩]⟩ 7).2 (by decide) (by decide)).2.2.2.2⟩

/-- C11, the claim as stated fails: seventeen students "A" to "Q" are added with rolls 1
to 17 and the rolls 2 to 17 are then updated to 1; the repository holds them in this
order, all with roll 1.  With the `std::sort` of libstdc++ the first `sortByRoll()`
leaves the order I Q P O N M L K J A H G F E D C B and the second call leaves
J B C D E F G H A I K L M N O P Q, a different order. -/
theorem C11_sort_twice_differs :
    (List.foldl (fun app k => App.update app ⟨k, 3, "", 0, 1, Address.empty⟩)
      (List.foldl
        (fun app (nk : String × Int) =>
          (App.addStudent app rollSeedInit false
            ⟨nk.1, 20, true, nk.2, 0, .finite false 0 0, false, Address.empty⟩).1)
        App.init
        [("A", 1), ("B", 2), ("C", 3), ("D", 4), ("E", 5), ("F", 6), ("G", 7), ("H", 8),
          ("I", 9), ("J", 10), ("K", 11), ("L", 12), ("M", 13), ("N", 14), ("O", 15),
          ("P", 16), ("Q", 17)])
      [2, 3, 4, 5, 6, 7, 8, 9, 10, 11, 12, 13, 14, 15, 16, 17]).repo_
      = ⟨equalRolls ["A", "B", "C", "D", "E", "F", "G", "H", "I", "J", "K", "L", "M", "N",
          "O", "P", "Q"]⟩ ∧
    StudentRepository.sortByRoll
        ⟨libstdcxx.sort rollLess, libstdcxx_sort_perm rollLess, libstdcxx_sort_sorted⟩
        ⟨equalRolls ["A", "B", "C", "D", "E", "F", "G", "H", "I", "J", "K", "L", "M", "N",
          "O", "P", "Q"]⟩
      = ⟨equalRolls ["I", "Q", "P", "O", "N", "M", "L", "K", "J", "A", "H", "G", "F", "E",
          "D", "C", "B"]⟩ ∧
    StudentRepository.sortByRoll
        ⟨libstdcxx.sort rollLess, libstdcxx_sort_perm rollLess, libstdcxx_sort_sorted⟩
        (StudentRepository.sortByRoll
          ⟨libstdcxx.sort rollLess, libstdcxx_sort_perm rollLess, libstdcxx_sort_sorted⟩
          ⟨equalRolls ["A", "B", "C", "D", "E", "F", "G", "H", "I", "J", "K", "L", "M", "N",
            "O", "P", "Q"]⟩)
      = ⟨equalRolls ["J", "B", "C", "D", "E", "F", "G", "H", "A", "I", "K", "L", "M", "N",
          "O", "P", "Q"]⟩ ∧
    StudentRepository.sortByRoll
        ⟨libstdcxx.sort rollLess, libstdcxx_sort_perm rollLess, libstdcxx_sort_sorted⟩
        (StudentRepository.sortByRoll
          ⟨libstdcxx.sort rollLess, libstdcxx_sort_perm rollLess, libstdcxx_sort_sorted⟩
          ⟨equalRolls ["A", "B", "C", "D", "E", "F", "G", "H", "I", "J", "K", "L", "M", "N",
            "O", "P", "Q"]⟩)
      ≠ StudentRepository.sortByRoll
          ⟨libstdcxx.sort rollLess, libstdcxx_sort_perm rollLess, libstdcxx_sort_sorted⟩
          ⟨equalRolls ["A", "B", "C", "D", "E", "F", "G", "H", "I", "J", "K", "L", "M", "N",
            "O", "P", "Q"]⟩ :=
  ⟨rfl, rfl, rfl, by decide⟩

/-- C11 as amended: for every repository and every conforming implementation of
`std::sort`, after `sortByRoll()` the held collection is a permutation of the collection
before the call whose rolls are non-decreasing in iteration order, and a second
`sortByRoll()` yields the same sequence of rolls; a second `sortByRoll()` yields the same
order of entities as the first call when the rolls are pairwise distinct (with any
conforming implementation) and, with the `std::sort` of libstdc++, when the repository
holds at most 16 entities. -/
theorem C11_sortByRoll_perm_sorted_idem (impl impl2 : StdSort) (repo : StudentRepository) :
    (repo.sortByRoll impl).data_.Perm repo.data_ ∧
    (repo.sortByRoll impl).rolls.Pairwise (fun x y => x ≤ y) ∧
    ((repo.sortByRoll impl).sortByRoll impl2).rolls = (repo.sortByRoll impl).rolls ∧
    (repo.rolls.Nodup → (repo.sortByRoll impl).sortByRoll impl2 = repo.sortByRoll impl) ∧
    (repo.data_.length ≤ 16 →
      StudentRepository.sortByRoll ⟨libstdcxx.sort rollLess, libstdcxx_sort_perm rollLess, libstdcxx_sort_sorted⟩ (StudentRepository.sortByRoll ⟨libstdcxx.sort rollLess, libstdcxx_sort_perm rollLess, libstdcxx_sort_sorted⟩ repo)
        = StudentRepository.sortByRoll ⟨libstdcxx.sort rollLess, libstdcxx_sort_perm rollLess, libstdcxx_sort_sorted⟩ repo) := by
  refine ⟨impl.perm _, sorted_rolls_of_sorted (impl.sorted _), ?_, ?_, ?_⟩
  · exact sorted_perm_rolls (impl2.perm _) (impl2.sorted _) (impl.sorted _)
  · intro hd
    have hd1 : ((impl.run repo.data_).map StudentObj.roll).Nodup :=
      ((impl.perm repo.data_).map StudentObj.roll).nodup_iff.2 hd
    have hd2 : ((impl2.run (impl.run repo.data_)).map StudentObj.roll).Nodup :=
      ((impl2.perm _).map StudentObj.roll).nodup_iff.2 hd1
    have h := sorted_perm_unique (impl2.perm (impl.run repo.data_)) (impl2.sorted _)
      (impl.sorted _) hd2
    show StudentRepository.mk (impl2.run (impl.run repo.data_)) = StudentRepository.mk _
    rw [h]
  · intro hlen
    have hlen1 : (libstdcxx.sort rollLess repo.data_).length ≤ 16 := by
      rw [(libstdcxx_sort_perm rollLess repo.data_).length_eq]; exact hlen
    show StudentRepository.mk (libstdcxx.sort rollLess (libstdcxx.sort rollLess repo.data_))
      = StudentRepository.mk (libstdcxx.sort rollLess repo.data_)
    rw [libstdcxx_sort_of_sorted _ hlen1 (libstdcxx_sort_sorted repo.data_)]

/-- Witness of C11 as amended: a repository holding rolls 7 and 5 (pairwise distinct), and
a repository of three entities holding roll 7 twice, each sorted twice with the
`std::sort` of libstdc++. -/
theorem C11_sortByRoll_perm_sorted_idem_witness :
    (StudentRepository.rolls
        ⟨[.student ⟨⟨"Cy", 20⟩, 7, Address.empty, []⟩,
          .student ⟨⟨"Bo", 22⟩, 5, Address.empty, []⟩]⟩).Nodup ∧
    StudentRepository.sortByRoll ⟨libstdcxx.sort rollLess, libstdcxx_sort_perm rollLess, libstdcxx_sort_sorted⟩
        ⟨[.student ⟨⟨"Cy", 20⟩, 7, Address.empty, []⟩,
          .student ⟨⟨"Bo", 22⟩, 5, Address.empty, []⟩]⟩
      = ⟨[.student ⟨⟨"Bo", 22⟩, 5, Address.empty, []⟩,
          .student ⟨⟨"Cy", 20⟩, 7, Address.empty, []⟩]⟩ ∧
    StudentRepository.sortByRoll ⟨libstdcxx.sort rollLess, libstdcxx_sort_perm rollLess, libstdcxx_sort_sorted⟩
        (StudentRepository.sortByRoll ⟨libstdcxx.sort rollLess, libstdcxx_sort_perm rollLess, libstdcxx_sort_sorted⟩
          ⟨[.student ⟨⟨"Cy", 20⟩, 7, Address.empty, []⟩,
            .student ⟨⟨"Bo", 22⟩, 5, Address.empty, []⟩]⟩)
      = StudentRepository.sortByRoll ⟨libstdcxx.sort rollLess, libstdcxx_sort_perm rollLess, libstdcxx_sort_sorted⟩
          ⟨[.student ⟨⟨"Cy", 20⟩, 7, Address.empty, []⟩,
            .student ⟨⟨"Bo", 22⟩, 5, Address.empty, []⟩]⟩ ∧
    (StudentRepository.mk
        [.student ⟨⟨"Cy", 20⟩, 7, Address.empty, []⟩,
          .student ⟨⟨"Bo", 22⟩, 5, Address.empty, []⟩,
          .student ⟨⟨"Di", 23⟩, 7, Address.empty, []⟩]).data_.length ≤ 16 ∧
    StudentRepository.sortByRoll ⟨libstdcxx.sort rollLess, libstdcxx_sort_perm rollLess, libstdcxx_sort_sorted⟩
        ⟨[.student ⟨⟨"Cy", 20⟩, 7, Address.empty, []⟩,
          .student ⟨⟨"Bo", 22⟩, 5, Address.empty, []⟩,
          .student ⟨⟨"Di", 23⟩, 7, Address.empty, []⟩]⟩
      = ⟨[.student ⟨⟨"Bo", 22⟩, 5, Address.empty, []⟩,
          .student ⟨⟨"Cy", 20⟩, 7, Address.empty, []⟩,
          .student ⟨⟨"Di", 23⟩, 7, Address.empty, []⟩]⟩ ∧
    StudentRepository.sortByRoll ⟨libstdcxx.sort rollLess, libstdcxx_sort_perm rollLess, libstdcxx_sort_sorted⟩
        (StudentRepository.sortByRoll ⟨libstdcxx.sort rollLess, libstdcxx_sort_perm rollLess, libstdcxx_sort_sorted⟩
          ⟨[.student ⟨⟨"Cy", 20⟩, 7, Address.empty, []⟩,
            .student ⟨⟨"Bo", 22⟩, 5, Address.empty, []⟩,
            .student ⟨⟨"Di", 23⟩, 7, Address.empty, []⟩]⟩)
      = StudentRepository.sortByRoll ⟨libstdcxx.sort rollLess, libstdcxx_sort_perm rollLess, libstdcxx_sort_sorted⟩
          ⟨[.student ⟨⟨"Cy", 20⟩, 7, Address.empty, []⟩,
            .student ⟨⟨"Bo", 22⟩, 5, Address.empty, []⟩,
            .student ⟨⟨"Di", 23⟩, 7, Address.empty, []⟩]⟩ :=
  ⟨by decide, rfl,
    (C11_sortByRoll_perm_sorted_idem ⟨libstdcxx.sort rollLess, libstdcxx_sort_perm rollLess, libstdcxx_sort_sorted⟩ ⟨libstdcxx.sort rollLess, libstdcxx_sort_perm rollLess, libstdcxx_sort_sorted⟩
      ⟨[.student ⟨⟨"Cy", 20⟩, 7, Address.empty, []⟩,
        .student ⟨⟨"Bo", 22⟩, 5, Address.empty, []⟩]⟩).2.2.2.1 (by decide),
    by decide, rfl,
    (C11_sortByRoll_perm_sorted_idem ⟨libstdcxx.sort rollLess, libstdcxx_sort_perm rollLess, libstdcxx_sort_sorted⟩ ⟨libstdcxx.sort rollLess, libstdcxx_sort_perm rollLess, libstdcxx_sort_sorted⟩
      ⟨[.student ⟨⟨"Cy", 20⟩, 7, Address.empty, []⟩,
        .student ⟨⟨"Bo", 22⟩, 5, Address.empty, []⟩,
        .student ⟨⟨"Di", 23⟩, 7, Address.empty, []⟩]⟩).2.2.2.2 (by decide)⟩

/-- C13: for every `Student` and courses `c`, `c1` with `c1.code == c.code`,
`addCourse(c)` followed by `addCourse(c1)` leaves the same object as `addCourse(c)` alone;
for a `Student` obtained from a successful constructor call and any sequence of mutator
calls (`addCourse` and `removeCourseByCode` among them), exactly one course in the list
has code `c.code` after `addCourse(c)`, the course codes in the list are pairwise distinct,
and the list is in first-insertion order: it holds, per code, the first of the courses
added and not removed afterwards, in the order of the `addCourse` calls. -/
theorem C13_addCourse_idempotent_distinct_codes (seed : Int) (k : CtorCall) (s0 : Student)
    (ops : List StudentOp) (c c1 : Course)
    (hk : (k.run seed).1 = .ok s0) (hcode : c1.code = c.code) :
    (∀ s : Student, (s.addCourse c).addCourse c1 = s.addCourse c) ∧
    (((s0.applyAll ops).addCourse c).courses_.map Course.code).count c.code = 1 ∧
    ((s0.applyAll ops).courses_.map Course.code).Nodup ∧
    (s0.applyAll ops).courses_ = keepFirstByCode (survivingAdds ops) := by
  have h0 : s0.courses_ = [] := ctor_courses_nil hk
  have hd0 : (s0.courses_.map Course.code).Nodup := by rw [h0]; exact List.nodup_nil
  have hd : ((s0.applyAll ops).courses_.map Course.code).Nodup :=
    applyAll_courses_nodup ops s0 hd0
  refine ⟨fun s => addCourse_same_code s c c1 hcode, ?_, hd, ?_⟩
  · have hd1 : (((s0.applyAll ops).addCourse c).courses_.map Course.code).Nodup :=
      apply_courses_nodup (s0.applyAll ops) (.addCourse c) hd
    obtain ⟨x, hx, hxc⟩ := addCourse_has_code (s0.applyAll ops) c
    exact List.count_eq_one_of_mem hd1 (List.mem_map.2 ⟨x, hx, hxc⟩)
  · rw [applyAll_courses ops s0 hd0, h0]
    rfl

/-- Witness of C13: `Student("Cy",20,7)` after `addCourse(CS1)`, `addCourse(MA1)`, a
second `addCourse` with code `CS1`, `removeCourseByCode("CS1")`, `addCourse(PH1)` and a
third `addCourse` with code `CS1` holds `MA1`, `PH1`, `CS1` in this order. -/
theorem C13_addCourse_idempotent_distinct_codes_witness :
    ((CtorCall.explicit "Cy" 20 7).run 1000).1 = .ok ⟨⟨"Cy", 20⟩, 7, Address.empty, []⟩ ∧
    (Student.applyAll ⟨⟨"Cy", 20⟩, 7, Address.empty, []⟩
      [.addCourse ⟨"CS1", "Intro"⟩, .addCourse ⟨"MA1", "Calculus"⟩,
        .addCourse ⟨"CS1", "Again"⟩, .removeCourseByCode "CS1", .addCourse ⟨"PH1", "Physics"⟩,
        .addCourse ⟨"CS1", "Third"⟩]).courses_
      = [⟨"MA1", "Calculus"⟩, ⟨"PH1", "Physics"⟩, ⟨"CS1", "Third"⟩] ∧
    (Student.applyAll ⟨⟨"Cy", 20⟩, 7, Address.empty, []⟩
      [.addCourse ⟨"CS1", "Intro"⟩, .addCourse ⟨"MA1", "Calculus"⟩,
        .addCourse ⟨"CS1", "Again"⟩, .removeCourseByCode "CS1", .addCourse ⟨"PH1", "Physics"⟩,
        .addCourse ⟨"CS1", "Third"⟩]).courses_
      = keepFirstByCode (survivingAdds
          [.addCourse ⟨"CS1", "Intro"⟩, .addCourse ⟨"MA1", "Calculus"⟩,
            .addCourse ⟨"CS1", "Again"⟩, .removeCourseByCode "CS1",
            .addCourse ⟨"PH1", "Physics"⟩, .addCourse ⟨"CS1", "Third"⟩]) :=
  ⟨rfl, rfl,
    (C13_addCourse_idempotent_distinct_codes 1000 (.explicit "Cy" 20 7)
      ⟨⟨"Cy", 20⟩, 7, Address.empty, []⟩
      [.addCourse ⟨"CS1", "Intro"⟩, .addCourse ⟨"MA1", "Calculus"⟩,
        .addCourse ⟨"CS1", "Again"⟩, .removeCourseByCode "CS1", .addCourse ⟨"PH1", "Physics"⟩,
        .addCourse ⟨"CS1", "Third"⟩]
      ⟨"X", "x"⟩ ⟨"X", "y"⟩ rfl rfl).2.2.2⟩

/-- C14: `removeCourseByCode(k)` returns true if and only if some course in the list had
code `k` before the call; afterwards no course in the list has code `k`, the courses with
another code are all kept in their original relative order (the list is the former list
filtered by `code != k`), and no other field of the object has changed. -/
theorem C14_removeCourseByCode (s : Student) (k : String) :
    ((s.removeCourseByCode k).1 = true ↔ ∃ c ∈ s.courses_, c.code = k) ∧
    (∀ c ∈ (s.removeCourseByCode k).2.courses_, c.code ≠ k) ∧
    (s.removeCourseByCode k).2.courses_ = s.courses_.filter (fun c => decide (c.code ≠ k)) ∧
    (s.removeCourseByCode k).2 =
      ⟨⟨s.name_, s.age_⟩, s.roll_, s.address_,
        s.courses_.filter (fun c => decide (c.code ≠ k))⟩ := by
  have hc := removeCourse_courses s k
  have hiff : (remove_if (fun c : Course => decide (c.code = k)) s.courses_).length
      ≠ s.courses_.length ↔ ∃ c ∈ s.courses_, c.code = k := by
    rw [remove_if_length_ne_iff]
    simp
  refine ⟨?_, ?_, hc, ?_⟩
  · rw [← hiff]
    unfold Student.removeCourseByCode
    by_cases h : (remove_if (fun c : Course => decide (c.code = k)) s.courses_).length
        ≠ s.courses_.length
    · simp [h]
    · simp [h]
  · intro c hcm
    rw [hc, List.mem_filter] at hcm
    simpa using hcm.2
  · have hother : (s.removeCourseByCode k).2 =
        ⟨⟨s.name_, s.age_⟩, s.roll_, s.address_, (s.removeCourseByCode k).2.courses_⟩ := by
      unfold Student.removeCourseByCode
      by_cases h : (remove_if (fun c : Course => decide (c.code = k)) s.courses_).length
          ≠ s.courses_.length
      · simp [h]
      · simp [h]
    rw [hother, hc]

/-- C15: `findByName(n)` returns exactly the held entities whose name equals `n`
character for character, each once, in the collection's current iteration order (the
filter of the collection by `name == n`), and it does not change the collection; after
`sortByRoll()`, with any conforming implementation of `std::sort`, the result is ordered
by non-decreasing roll.  Example: in a repository holding "Ann" (roll 2), "ann" (roll 3)
and "Ann" (roll 1), `findByName("Ann")` returns the first and the third entity. -/
theorem C15_findByName_filter (impl : StdSort) (repo : StudentRepository) (n : String) :
    (repo.findByName n).1 = repo.data_.filter (fun p => decide (p.name = n)) ∧
    (repo.findByName n).2 = repo ∧
    (((repo.sortByRoll impl).findByName n).1.map StudentObj.roll).Pairwise
      (fun x y => x ≤ y) ∧
    (StudentRepository.findByName
        ⟨[.student ⟨⟨"Ann", 20⟩, 2, Address.empty, []⟩,
          .student ⟨⟨"ann", 21⟩, 3, Address.empty, []⟩,
          .student ⟨⟨"Ann", 22⟩, 1, Address.empty, []⟩]⟩ "Ann").1
      = [.student ⟨⟨"Ann", 20⟩, 2, Address.empty, []⟩,
          .student ⟨⟨"Ann", 22⟩, 1, Address.empty, []⟩] := by
  have hf : ∀ rp : StudentRepository,
      (rp.findByName n).1 = rp.data_.filter (fun p => decide (p.name = n)) := by
    intro rp
    simp [StudentRepository.findByName, findByNameIn_eq]
  refine ⟨hf repo, rfl, ?_, rfl⟩
  rw [hf]
  have hs : (repo.sortByRoll impl).rolls.Pairwise (fun x y => x ≤ y) :=
    sorted_rolls_of_sorted (impl.sorted _)
  exact hs.sublist ((List.filter_sublist _).map _)

/-- C16: `findByRoll(r)` returns not-found if and only if no held entity has roll `r`;
otherwise it returns the first entity in collection order whose roll equals `r` (every
entity before it has another roll).  After an `add(s)` that does not throw,
`findByRoll(s.roll())` returns `s` and `findByRoll` of every other roll returns what it
returned before the `add`. -/
theorem C16_findByRoll_first_match (repo : StudentRepository) (r : Int) (s : StudentObj) :
    (repo.findByRoll r = none ↔ ∀ p ∈ repo.data_, p.roll ≠ r) ∧
    repo.findByRoll r = repo.data_.find? (fun p => decide (p.roll = r)) ∧
    (∀ p, repo.findByRoll r = some p ↔
      p.roll = r ∧ ∃ pre post, repo.data_ = pre ++ p :: post ∧ ∀ q ∈ pre, q.roll ≠ r) ∧
    (threw (repo.add s).1 = false →
      (repo.add s).2.findByRoll s.roll = some s ∧
      ∀ r1, r1 ≠ s.roll → (repo.add s).2.findByRoll r1 = repo.findByRoll r1) := by
  refine ⟨findByRollIn_eq_none_iff r _, findByRollIn_eq_find r _, ?_, ?_⟩
  · intro p
    show StudentRepository.findByRollIn r repo.data_ = some p ↔ _
    rw [findByRollIn_eq_find, List.find?_eq_some]
    simp
  · intro hok
    have habs : ∀ p ∈ repo.data_, p.roll ≠ s.roll := by
      intro p hp heq
      rw [add_of_present repo s ⟨p, hp, heq⟩] at hok
      simp [threw] at hok
    rw [add_of_absent repo s habs]
    constructor
    · show StudentRepository.findByRollIn s.roll (repo.data_ ++ [s]) = some s
      rw [findByRollIn_eq_find, List.find?_append]
      have hn : repo.data_.find? (fun p => decide (p.roll = s.roll)) = none := by
        rw [← findByRollIn_eq_find]
        exact (findByRollIn_eq_none_iff _ _).2 habs
      rw [hn]
      simp
    · intro r1 hr1
      show StudentRepository.findByRollIn r1 (repo.data_ ++ [s])
        = StudentRepository.findByRollIn r1 repo.data_
      rw [findByRollIn_eq_find, findByRollIn_eq_find, List.find?_append]
      have hne : ¬ s.roll = r1 := fun h => hr1 h.symm
      simp [hne]

/-- Witness of C16: adding "Bo" (roll 5) to a repository holding "Cy" (roll 7) does not
throw; afterwards roll 5 finds "Bo" and roll 7 still finds "Cy". -/
theorem C16_findByRoll_first_match_witness :
    threw (StudentRepository.add ⟨[.student ⟨⟨"Cy", 20⟩, 7, Address.empty, []⟩]⟩
      (.student ⟨⟨"Bo", 22⟩, 5, Address.empty, []⟩)).1 = false ∧
    (StudentRepository.add ⟨[.student ⟨⟨"Cy", 20⟩, 7, Address.empty, []⟩]⟩
      (.student ⟨⟨"Bo", 22⟩, 5, Address.empty, []⟩)).2.findByRoll
        (StudentObj.roll (.student ⟨⟨"Bo", 22⟩, 5, Address.empty, []⟩))
      = some (.student ⟨⟨"Bo", 22⟩, 5, Address.empty, []⟩) ∧
    (StudentRepository.add ⟨[.student ⟨⟨"Cy", 20⟩, 7, Address.empty, []⟩]⟩
      (.student ⟨⟨"Bo", 22⟩, 5, Address.empty, []⟩)).2.findByRoll 7
      = StudentRepository.findByRoll ⟨[.student ⟨⟨"Cy", 20⟩, 7, Address.empty, []⟩]⟩ 7 ∧
    StudentRepository.findByRoll ⟨[.student ⟨⟨"Cy", 20⟩, 7, Address.empty, []⟩]⟩ 7
      = some (.student ⟨⟨"Cy", 20⟩, 7, Address.empty, []⟩) :=
  ⟨rfl,
    ((C16_findByRoll_first_match ⟨[.student ⟨⟨"Cy", 20⟩, 7, Address.empty, []⟩]⟩ 7
      (.student ⟨⟨"Bo", 22⟩, 5, Address.empty, []⟩)).2.2.2 rfl).1,
    ((C16_findByRoll_first_match ⟨[.student ⟨⟨"Cy", 20⟩, 7, Address.empty, []⟩]⟩ 7
      (.student ⟨⟨"Bo", 22⟩, 5, Address.empty, []⟩)).2.2.2 rfl).2 7 (by decide),
    rfl⟩

/-- C17: for every name `n`, age `a`, roll `r` and scholarship amount `s` (a `double`
that is a number: `App::addStudent`, the only place that constructs a `HonorsStudent`,
passes the value `cin >> x` stored, which is never a NaN), `HonorsStudent(n, a, r, s)`
succeeds if and only if `Student(n, a, r)` succeeds and `s >= 0`; a constructed
`HonorsStudent` holds `s` as its scholarship, which is `>= 0`, on the `Student` that
`Student(n, a, r)` yields; otherwise the constructor throws `invalid_argument` and there
is no object, in particular when `s < 0`. -/
theorem C17_honors_ctor_iff_valid (n : String) (a r : Int) (s : Double)
    (hs : ∀ b, s ≠ Double.nan b) :
    match HonorsStudent.ctor n a r s with
    | .ok h => (Student.ctor n a r = .ok h.toStudent ∧ s.geZero = true) ∧
        h.scholarship_ = s ∧ h.scholarship_.geZero = true ∧ s.ltZero = false
    | .error e => ¬ ((∃ st, Student.ctor n a r = .ok st) ∧ s.geZero = true) ∧
        (threw (Student.ctor n a r) = true ∨ s.ltZero = true) ∧
        ∃ msg, e = .invalid_argument msg := by
  have hspec := HonorsStudent.ctor_spec n a r s
  have hlt : s.ltZero = true → s.geZero = false := by
    intro h
    cases s with
    | finite neg mant exp =>
      cases neg <;> by_cases hm : mant = 0 <;> simp_all [Double.ltZero, Double.geZero]
    | inf neg => cases neg <;> simp_all [Double.ltZero, Double.geZero]
    | nan neg => simp [Double.ltZero] at h
  cases hc : HonorsStudent.ctor n a r s with
  | ok h =>
    rw [hc] at hspec
    obtain ⟨h1, h2, h3⟩ := hspec
    have hge : s.geZero = true := by
      rcases h3 with h3 | ⟨b, hb⟩
      · exact h3
      · exact absurd hb (hs b)
    have hnlt : s.ltZero = false := by
      cases hl : s.ltZero with
      | false => rfl
      | true => rw [hlt hl] at hge; exact absurd hge (by decide)
    exact ⟨⟨h1, hge⟩, h2, by rw [h2]; exact hge, hnlt⟩
  | error e =>
    rw [hc] at hspec
    obtain ⟨h1, h2⟩ := hspec
    refine ⟨?_, h1, h2⟩
    rintro ⟨⟨st, hst⟩, hge⟩
    rcases h1 with h1 | h1
    · rw [hst] at h1
      simp [threw] at h1
    · rw [hlt h1] at hge
      exact absurd hge (by decide)

/-- Witness of C17: `HonorsStudent("Bo",22,5,1500.5)` is constructed and
`HonorsStudent("Bo",22,5,-1)` throws "Invalid scholarship". -/
theorem C17_honors_ctor_iff_valid_witness :
    (∀ b, Double.finite false 3001 (-1) ≠ Double.nan b) ∧
    HonorsStudent.ctor "Bo" 22 5 (.finite false 3001 (-1))
      = .ok ⟨⟨⟨"Bo", 22⟩, 5, Address.empty, []⟩, .finite false 3001 (-1)⟩ ∧
    ((Student.ctor "Bo" 22 5 = .ok ⟨⟨"Bo", 22⟩, 5, Address.empty, []⟩ ∧
        Double.geZero (.finite false 3001 (-1)) = true) ∧
      Double.finite false 3001 (-1) = Double.finite false 3001 (-1) ∧
      Double.geZero (.finite false 3001 (-1)) = true ∧
      Double.ltZero (.finite false 3001 (-1)) = false) ∧
    (∀ b, Double.finite true 1 0 ≠ Double.nan b) ∧
    HonorsStudent.ctor "Bo" 22 5 (.finite true 1 0)
      = .error (.invalid_argument "Invalid scholarship") ∧
    (threw (Student.ctor "Bo" 22 5) = true ∨ Double.ltZero (.finite true 1 0) = true) :=
  ⟨fun _ h => Double.noConfusion h, rfl,
    C17_honors_ctor_iff_valid "Bo" 22 5 (.finite false 3001 (-1))
      (fun _ h => Double.noConfusion h),
    fun _ h => Double.noConfusion h, rfl,
    (C17_honors_ctor_iff_valid "Bo" 22 5 (.finite true 1 0)
      (fun _ h => Double.noConfusion h)).2.1⟩

/-- C18: for every repository state and every tuple of add-flow inputs,
`App::addStudent` either appends exactly one entity to the repository or leaves the
repository exactly unchanged: when the construction throws the repository is unchanged;
when it yields an object whose roll is already held the repository is unchanged; otherwise
the object (with the address set when one was entered) is appended at the end.  Scenario:
adding `Student(name="", age=20)` to the empty repository leaves its size 0. -/
theorem C18_addStudent_appends_or_unchanged (app : App) (seed : Int) (honors : Bool)
    (inp : AddInput) :
    ((∃ s, (app.addStudent seed honors inp).1.repo_.data_ = app.repo_.data_ ++ [s]) ∨
      (app.addStudent seed honors inp).1 = app) ∧
    (match App.makeStudent seed honors inp with
      | (.error _, seed1) => app.addStudent seed honors inp = (app, seed1)
      | (.ok s, seed1) =>
        ((∃ p ∈ app.repo_.data_, p.roll = s.roll) ∧
          app.addStudent seed honors inp = (app, seed1)) ∨
        ((∀ p ∈ app.repo_.data_, p.roll ≠ s.roll) ∧
          ∃ s1, s1.roll = s.roll ∧ s1.name = s.name ∧
            app.addStudent seed honors inp
              = ({ repo_ := { data_ := app.repo_.data_ ++ [s1] } }, seed1))) ∧
    (App.addStudent App.init rollSeedInit false
        ⟨"", 20, false, 0, 0, .finite false 0 0, false, Address.empty⟩).1.repo_.data_.length
      = 0 := by
  have hroll : ∀ (p : StudentObj) (adr : Address),
      (p.withBase (p.base.setAddress adr)).roll = p.roll := by
    intro p adr; cases p <;> rfl
  have hname : ∀ (p : StudentObj) (adr : Address),
      (p.withBase (p.base.setAddress adr)).name = p.name := by
    intro p adr; cases p <;> rfl
  have key : match App.makeStudent seed honors inp with
      | (.error _, seed1) => app.addStudent seed honors inp = (app, seed1)
      | (.ok s, seed1) =>
        ((∃ p ∈ app.repo_.data_, p.roll = s.roll) ∧
          app.addStudent seed honors inp = (app, seed1)) ∨
        ((∀ p ∈ app.repo_.data_, p.roll ≠ s.roll) ∧
          ∃ s1, s1.roll = s.roll ∧ s1.name = s.name ∧
            app.addStudent seed honors inp
              = ({ repo_ := { data_ := app.repo_.data_ ++ [s1] } }, seed1)) := by
    unfold App.addStudent
    rcases hm : App.makeStudent seed honors inp with ⟨out, seed1⟩
    cases out with
    | error e => rfl
    | ok s =>
      dsimp only
      by_cases haddr : inp.addAddress = true
      · rw [if_pos haddr]
        by_cases hp : ∃ p ∈ app.repo_.data_, p.roll = s.roll
        · left
          refine ⟨hp, ?_⟩
          have hp1 : ∃ p ∈ app.repo_.data_,
              p.roll = (s.withBase (s.base.setAddress inp.address)).roll := by
            rw [hroll]; exact hp
          rw [add_of_present _ _ hp1]
        · right
          have ha : ∀ p ∈ app.repo_.data_, p.roll ≠ s.roll := by
            intro p hpm heq; exact hp ⟨p, hpm, heq⟩
          have ha1 : ∀ p ∈ app.repo_.data_,
              p.roll ≠ (s.withBase (s.base.setAddress inp.address)).roll := by
            rw [hroll]; exact ha
          refine ⟨ha, s.withBase (s.base.setAddress inp.address), hroll _ _, hname _ _, ?_⟩
          rw [add_of_absent _ _ ha1]
      · rw [if_neg haddr]
        by_cases hp : ∃ p ∈ app.repo_.data_, p.roll = s.roll
        · left
          refine ⟨hp, ?_⟩
          rw [add_of_present _ _ hp]
        · right
          have ha : ∀ p ∈ app.repo_.data_, p.roll ≠ s.roll := by
            intro p hpm heq; exact hp ⟨p, hpm, heq⟩
          refine ⟨ha, s, rfl, rfl, ?_⟩
          rw [add_of_absent _ _ ha]
  refine ⟨?_, key, rfl⟩
  revert key
  rcases App.makeStudent seed honors inp with ⟨out, seed1⟩
  cases out with
  | error e =>
    intro key
    right
    exact congrArg Prod.fst key
  | ok s =>
    intro key
    rcases key with ⟨_, h⟩ | ⟨_, s1, _, _, h⟩
    · right
      exact congrArg Prod.fst h
    · left
      exact ⟨s1, by rw [h]⟩

/-- C19, the claim as stated fails: for `Student("Cy",20,7)` the `Person`-level text is
`"Name: Cy\nAge: 20\n"` and the `Student`-level text is
`"[ Student ]\nName: Cy\nAge: 20\nRoll No: 7\n"`; the former is not a prefix of the
latter, because `Student::print` writes the role header before it calls `Person::print`. -/
theorem C19_person_text_not_prefix :
    StudentObj.printPerson (.student ⟨⟨"Cy", 20⟩, 7, Address.empty, []⟩)
      = "Name: Cy\nAge: 20\n" ∧
    StudentObj.print (.student ⟨⟨"Cy", 20⟩, 7, Address.empty, []⟩)
      = "[ Student ]\nName: Cy\nAge: 20\nRoll No: 7\n" ∧
    ¬ List.IsPrefix
        (StudentObj.printPerson (.student ⟨⟨"Cy", 20⟩, 7, Address.empty, []⟩)).data
        (StudentObj.print (.student ⟨⟨"Cy", 20⟩, 7, Address.empty, []⟩)).data :=
  ⟨rfl, rfl, by decide⟩

/-- C19 as amended: for every entity the `Person`-level text is
`"Name: <name>\nAge: <age>\n"`; the `Student`-level text begins with the header line
`"[ <role> ]\n"` followed by the `Person`-level text, and the lines of `Student` come
after it; for a plain `Student` the text printed is the `Student`-level text; the
`Student`-level text is a prefix of the `HonorsStudent`-level text, whose only additional
text is one final line `"Scholarship: <amount>\n"`, the amount written in fixed notation
with exactly two decimal digits when it is finite. -/
theorem C19_print_chain (p : StudentObj) (h : HonorsStudent) (neg : Bool) (mant : Nat)
    (exp : Int) :
    p.printPerson = "Name: " ++ p.name ++ "\nAge: " ++ to_string_int p.base.age ++ "\n" ∧
    List.IsPrefix ("[ " ++ p.role ++ " ]\n" ++ p.printPerson).data p.printStudent.data ∧
    (∀ s : Student, (StudentObj.student s).print = (StudentObj.student s).printStudent) ∧
    (StudentObj.honors h).print
      = (StudentObj.honors h).printStudent
          ++ ("Scholarship: " ++ h.scholarship_.fixed 2 ++ "\n") ∧
    List.IsPrefix (StudentObj.honors h).printStudent.data (StudentObj.honors h).print.data ∧
    (∃ frac : List Char, frac.length = 2 ∧ (∀ c ∈ frac, c.isDigit = true) ∧
      Double.fixed 2 (.finite neg mant exp)
        = (if neg then "-" else "") ++ toString (scaledRound 2 mant exp / 10 ^ 2)
            ++ ("." ++ String.mk frac)) := by
  refine ⟨rfl, ?_, fun s => rfl, rfl, ?_, ?_⟩
  · refine ⟨(("Roll No: " ++ to_string_int p.base.roll_ ++ "\n")
        ++ (if p.base.address_.toString ≠ "" then
              "Address: " ++ p.base.address_.toString ++ "\n" else "")
        ++ (if p.base.courses_ ≠ [] then
              "Courses: " ++ printCourseCodes p.base.courses_ ++ "\n" else "")).data, ?_⟩
    simp only [StudentObj.printStudent, StudentObj.printPerson, Student.print,
      String.data_append, List.append_assoc]
  · exact ⟨("Scholarship: " ++ h.scholarship_.fixed 2 ++ "\n").data, rfl⟩
  · refine ⟨decimalDigits 2 (scaledRound 2 mant exp % 10 ^ 2), decimalDigits_length 2 _,
      decimalDigits_isDigit 2 _, ?_⟩
    simp [Double.fixed]

/-- C20: an auto-assigned roll is not checked against the rolls already held.  For every
repository that holds an entity whose roll equals the next counter value `seed + 1` (the
counter being an `int` that two more increments do not overflow), constructing an
auto-roll `Student` with a non-empty name and an age in `[0,130]` succeeds with roll
`seed + 1` and advances the counter to `seed + 1`; the following `add` of it throws the
duplicate-key error and leaves the collection unchanged; `App::addStudent` with these
inputs leaves the repository unchanged and the counter advanced; and the next auto-roll
construction receives `seed + 2`. -/
theorem C20_auto_roll_collision (repo : StudentRepository) (seed : Int) (n : String) (a : Int)
    (hn : n ≠ "") (ha : 0 ≤ a ∧ a ≤ 130)
    (hseed : -2147483648 ≤ seed ∧ seed + 2 ≤ INT_MAX)
    (hheld : ∃ p ∈ repo.data_, p.roll = seed + 1) :
    Student.ctorAuto seed n a
      = (.ok ⟨⟨n, a⟩, seed + 1, Address.empty, []⟩, seed + 1) ∧
    repo.add (.student ⟨⟨n, a⟩, seed + 1, Address.empty, []⟩)
      = (.error (.runtime_error "Duplicate roll"), repo) ∧
    (∀ (d : Double) (addAddress : Bool) (adr : Address),
      App.addStudent ⟨repo⟩ seed false ⟨n, a, false, 0, 0, d, addAddress, adr⟩
        = (⟨repo⟩, seed + 1)) ∧
    Student.ctorAuto (seed + 1) n a
      = (.ok ⟨⟨n, a⟩, seed + 2, Address.empty, []⟩, seed + 2) := by
  obtain ⟨h0, h1⟩ := ha
  obtain ⟨hlo, hhi⟩ := hseed
  unfold INT_MAX at hhi
  have hp : Person.ctor n a = .ok ⟨n, a⟩ := by
    have hage : ¬ (a < 0 ∨ a > 130) := by omega
    simp [Person.ctor, Person.ensureValidAge, hn, hage]
  have hw1 : wrapInt (seed + 1) = seed + 1 := wrapInt_of_inRange (by omega) (by omega)
  have hw2 : wrapInt (seed + 1 + 1) = seed + 2 := by
    rw [wrapInt_of_inRange (by omega) (by omega)]; omega
  have hc1 : Student.ctorAuto seed n a
      = (.ok ⟨⟨n, a⟩, seed + 1, Address.empty, []⟩, seed + 1) := by
    rw [ctorAuto_ok hp, hw1]
  have hadd : ∀ adr : Address,
      repo.add (.student ⟨⟨n, a⟩, seed + 1, adr, []⟩)
        = (.error (.runtime_error "Duplicate roll"), repo) :=
    fun adr => add_of_present repo _ hheld
  refine ⟨hc1, hadd _, ?_, ?_⟩
  · intro d addAddress adr
    have hm : App.makeStudent seed false ⟨n, a, false, 0, 0, d, addAddress, adr⟩
        = (.ok (.student ⟨⟨n, a⟩, seed + 1, Address.empty, []⟩), seed + 1) := by
      simp [App.makeStudent, hc1]
    unfold App.addStudent
    rw [hm]
    cases addAddress with
    | false =>
      simp only [Bool.false_eq_true, if_false]
      rw [hadd]
    | true =>
      simp only [if_true]
      have hwb : (StudentObj.student ⟨⟨n, a⟩, seed + 1, Address.empty, []⟩).withBase
          ((StudentObj.student ⟨⟨n, a⟩, seed + 1, Address.empty, []⟩).base.setAddress adr)
          = .student ⟨⟨n, a⟩, seed + 1, adr, []⟩ := rfl
      rw [hwb, hadd]
  · rw [ctorAuto_ok hp, hw2]

/-- Witness of C20: the repository holds "Cy" with roll 1001 and the counter is 1000;
`Student("Ann",20)` is constructed with roll 1001 and the counter becomes 1001, its `add`
throws "Duplicate roll" and leaves the repository unchanged, and the next auto-roll
construction receives 1002. -/
theorem C20_auto_roll_collision_witness :
    ("Ann" ≠ "" ∧ ((0 : Int) ≤ 20 ∧ (20 : Int) ≤ 130) ∧
      ((-2147483648 : Int) ≤ 1000 ∧ (1000 : Int) + 2 ≤ INT_MAX) ∧
      ∃ p ∈ [StudentObj.student ⟨⟨"Cy", 20⟩, 1001, Address.empty, []⟩], p.roll = 1000 + 1) ∧
    Student.ctorAuto 1000 "Ann" 20
      = (.ok ⟨⟨"Ann", 20⟩, 1000 + 1, Address.empty, []⟩, 1000 + 1) ∧
    StudentRepository.add ⟨[.student ⟨⟨"Cy", 20⟩, 1001, Address.empty, []⟩]⟩
        (.student ⟨⟨"Ann", 20⟩, 1000 + 1, Address.empty, []⟩)
      = (.error (.runtime_error "Duplicate roll"),
          ⟨[.student ⟨⟨"Cy", 20⟩, 1001, Address.empty, []⟩]⟩) ∧
    Student.ctorAuto (1000 + 1) "Ann" 20
      = (.ok ⟨⟨"Ann", 20⟩, 1000 + 2, Address.empty, []⟩, 1000 + 2) :=
  ⟨⟨by decide, by decide, by decide, by decide⟩,
    (C20_auto_roll_collision ⟨[.student ⟨⟨"Cy", 20⟩, 1001, Address.empty, []⟩]⟩ 1000 "Ann" 20
      (by decide) (by decide) (by decide) (by decide)).1,
    (C20_auto_roll_collision ⟨[.student ⟨⟨"Cy", 20⟩, 1001, Address.empty, []⟩]⟩ 1000 "Ann" 20
      (by decide) (by decide) (by decide) (by decide)).2.1,
    (C20_auto_roll_collision ⟨[.student ⟨⟨"Cy", 20⟩, 1001, Address.empty, []⟩]⟩ 1000 "Ann" 20
      (by decide) (by decide) (by decide) (by decide)).2.2.2⟩

end SMS
